import Mathlib

/-!
# A32 memory-access emitters of the arm64 backend

A shallow embedding of `src/dynarmic/backend/arm64/emit_arm64_a32_memory.cpp`.

* An emitter is a function to the list of events it produces, in source order: requests to the
  register allocator and the host instructions handed to the code generator.
* The host instructions are given an executable semantics over a small A64 machine, so that the
  emitted sequences can be run.

What the translation unit only includes (register conventions, the offset of the exclusive
flag, the registers the allocator hands out, the out-of-line routines) is a parameter.
-/

namespace Dynarmic.Backend.Arm64

/-! ## Data model -/

/-- Access-type tag carried by a memory IR instruction (`IR::AccType`). The source names three
enumerators; each remaining enumerator of the included enumeration is `other k`. -/
inductive AccType
  | ORDERED
  | ORDEREDRW
  | LIMITEDORDERED
  | other (k : Nat)
  deriving DecidableEq, Repr

/-- The out-of-line routines named by the source (`LinkTarget::...`). -/
inductive LinkTarget
  | ReadMemory8 | ReadMemory16 | ReadMemory32 | ReadMemory64
  | ExclusiveReadMemory8 | ExclusiveReadMemory16 | ExclusiveReadMemory32 | ExclusiveReadMemory64
  | WriteMemory8 | WriteMemory16 | WriteMemory32 | WriteMemory64
  | ExclusiveWriteMemory8 | ExclusiveWriteMemory16 | ExclusiveWriteMemory32
  | ExclusiveWriteMemory64
  deriving DecidableEq, Repr

/-- The IR opcodes this translation unit specialises `EmitIR` for. -/
inductive Opcode
  | A32ClearExclusive
  | A32ReadMemory8 | A32ReadMemory16 | A32ReadMemory32 | A32ReadMemory64
  | A32ExclusiveReadMemory8 | A32ExclusiveReadMemory16 | A32ExclusiveReadMemory32
  | A32ExclusiveReadMemory64
  | A32WriteMemory8 | A32WriteMemory16 | A32WriteMemory32 | A32WriteMemory64
  | A32ExclusiveWriteMemory8 | A32ExclusiveWriteMemory16 | A32ExclusiveWriteMemory32
  | A32ExclusiveWriteMemory64
  deriving DecidableEq, Repr

/-- A general-purpose register operand: its width in bits (32 for a W form, 64 for an X form)
and its number. Number 31 is the zero register as a data operand and SP as a base. -/
structure Reg where
  bits : Nat
  index : Nat
  deriving DecidableEq, Repr

/-- The 32-bit view of register `i`. -/
def WReg (i : Nat) : Reg := ⟨32, i⟩

/-- The 64-bit view of register `i`. -/
def XReg (i : Nat) : Reg := ⟨64, i⟩

/-- The 32-bit zero register. -/
def WZR : Reg := ⟨32, 31⟩

/-- Barrier domains of `DMB` (`oaknut::BarrierOp`). -/
inductive BarrierOp
  | SY | ST | LD | ISH | ISHST | ISHLD | NSH | NSHST | NSHLD | OSH | OSHST | OSHLD
  deriving DecidableEq, Repr

/-- Extension applied to the index register of a register-offset access and to the second
operand of an extended-register `ADD`. -/
inductive IndexExt
  | UXTW | LSL | SXTW | SXTX
  deriving DecidableEq, Repr

/-- A code label (`oaknut::Label`). -/
abbrev Label := Nat

/-- The host instructions the emitters hand to the code generator, named as the source names
them. The `_imm` forms address `[Xn, #offset]`, the `_reg` forms `[Xn, Rm, ext]`.
`Relocation fn` is the relocatable call that `EmitRelocation(code, ctx, fn)` emits, and
`l lbl` binds a label at the current position. -/
inductive Instr
  | MOV (rd : Reg) (imm : Nat)
  | ADD (rd rn rm : Reg) (ext : IndexExt)
  | LDRB_reg (rt xn rm : Reg) (ext : IndexExt)
  | LDRH_reg (rt xn rm : Reg) (ext : IndexExt)
  | LDR_reg (rt xn rm : Reg) (ext : IndexExt)
  | STRB_reg (rt xn rm : Reg) (ext : IndexExt)
  | STRH_reg (rt xn rm : Reg) (ext : IndexExt)
  | STR_reg (rt xn rm : Reg) (ext : IndexExt)
  | LDXRB (rt xn : Reg)
  | LDXRH (rt xn : Reg)
  | LDXR (rt xn : Reg)
  | STXRB (ws rt xn : Reg)
  | STXRH (ws rt xn : Reg)
  | STXR (ws rt xn : Reg)
  | LDRB_imm (rt xn : Reg) (offset : Nat)
  | STRB_imm (rt xn : Reg) (offset : Nat)
  | STR_imm (rt xn : Reg) (offset : Nat)
  | CBZ (rt : Reg) (target : Label)
  | DMB (op : BarrierOp)
  | CLREX
  | l (lbl : Label)
  | Relocation (fn : LinkTarget)
  deriving DecidableEq, Repr

/-- One event of an emission, in source order: a request to the register allocator
(`ctx.reg_alloc.*`, `RegAlloc::Realize`) or an instruction given to the code generator. The
argument numbers are the indices into `args`; `PrepareForCall result as` records whether the
instruction was passed as the result of the call and the arguments passed, `none` for `{}`. -/
inductive Emit
  | ReadW (arg : Nat)
  | ReadReg (bits : Nat) (arg : Nat)
  | WriteW
  | WriteReg (bits : Nat)
  | Realize (regs : List Reg)
  | PrepareForCall (result : Bool) (args : List (Option Nat))
  | code (i : Instr)
  deriving DecidableEq, Repr

/-- Host conventions the source takes from headers outside this translation unit: the numbers
of the registers `Xstate` and `Xscratch0` (`Wscratch0` is its 32-bit view) and
`offsetof(A32JitState, exclusive_state)`. -/
structure Abi where
  Xstate : Nat
  Xscratch0 : Nat
  exclusive_state : Nat
  deriving DecidableEq, Repr

/-- The part of `ctx.conf` the emitters read. -/
structure EmitConfig where
  enable_fastmem : Bool
  fastmem_addr : Nat
  deriving DecidableEq, Repr

/-- The register numbers the allocator realises for the operands of one instruction: the
address (`Waddr`), a load destination (`to` of the source, here `to_`), a store value
(`value`) and the status of an exclusive store (`Wresult`). -/
structure Binding where
  Waddr : Nat
  to_ : Nat
  value : Nat
  Wresult : Nat
  deriving DecidableEq, Repr

/-- The widths the inline emitters are instantiated at: the condition of their
`static_assert`. -/
def ValidBitSize (bit_size : Nat) : Prop :=
  bit_size = 8 ∨ bit_size = 16 ∨ bit_size = 32 ∨ bit_size = 64

instance (bit_size : Nat) : Decidable (ValidBitSize bit_size) := by
  unfold ValidBitSize
  infer_instance

/-! ## The emitters -/

/-- `IsOrdered` of the source. -/
def IsOrdered (acctype : AccType) : Bool :=
  acctype == AccType.ORDERED || acctype == AccType.ORDEREDRW
    || acctype == AccType.LIMITEDORDERED

/-- `EmitInlineReadMemory<bit_size>`. -/
def EmitInlineReadMemory (abi : Abi) (conf : EmitConfig) (b : Binding) (acctype : AccType)
    (bit_size : Nat) (h : ValidBitSize bit_size) : List Emit :=
  let Waddr := WReg b.Waddr
  let to_ : Reg := ⟨max bit_size 32, b.to_⟩
  let ordered := IsOrdered acctype
  let Xscratch0 := XReg abi.Xscratch0
  [Emit.ReadW 1, Emit.WriteReg (max bit_size 32), Emit.Realize [Waddr, to_],
    Emit.code (Instr.MOV Xscratch0 conf.fastmem_addr)]
  ++ (if h1 : bit_size = 8 then
        [Emit.code (Instr.LDRB_reg to_ Xscratch0 Waddr IndexExt.UXTW)]
      else if h2 : bit_size = 16 then
        [Emit.code (Instr.LDRH_reg to_ Xscratch0 Waddr IndexExt.UXTW)]
      else if h3 : bit_size = 32 ∨ bit_size = 64 then
        [Emit.code (Instr.LDR_reg to_ Xscratch0 Waddr IndexExt.UXTW)]
      else
        absurd h (by unfold ValidBitSize; omega))
  ++ (if ordered then [Emit.code (Instr.DMB BarrierOp.ISH)] else [])

/-- `EmitInlineExclusiveReadMemory<bit_size>`. -/
def EmitInlineExclusiveReadMemory (abi : Abi) (conf : EmitConfig) (b : Binding)
    (acctype : AccType) (bit_size : Nat) (h : ValidBitSize bit_size) : List Emit :=
  let Waddr := WReg b.Waddr
  let to_ : Reg := ⟨max bit_size 32, b.to_⟩
  let ordered := IsOrdered acctype
  let Xscratch0 := XReg abi.Xscratch0
  [Emit.ReadW 1, Emit.WriteReg (max bit_size 32), Emit.Realize [Waddr, to_],
    Emit.code (Instr.MOV Xscratch0 conf.fastmem_addr),
    Emit.code (Instr.ADD Xscratch0 Xscratch0 Waddr IndexExt.UXTW)]
  ++ (if h1 : bit_size = 8 then
        [Emit.code (Instr.LDXRB to_ Xscratch0)]
      else if h2 : bit_size = 16 then
        [Emit.code (Instr.LDXRH to_ Xscratch0)]
      else if h3 : bit_size = 32 ∨ bit_size = 64 then
        [Emit.code (Instr.LDXR to_ Xscratch0)]
      else
        absurd h (by unfold ValidBitSize; omega))
  ++ (if ordered then [Emit.code (Instr.DMB BarrierOp.ISH)] else [])

/-- `EmitInlineWriteMemory<bit_size>`. -/
def EmitInlineWriteMemory (abi : Abi) (conf : EmitConfig) (b : Binding) (acctype : AccType)
    (bit_size : Nat) (h : ValidBitSize bit_size) : List Emit :=
  let Waddr := WReg b.Waddr
  let value : Reg := ⟨max bit_size 32, b.value⟩
  let ordered := IsOrdered acctype
  let Xscratch0 := XReg abi.Xscratch0
  [Emit.ReadW 1, Emit.ReadReg (max bit_size 32) 2, Emit.Realize [Waddr, value],
    Emit.code (Instr.MOV Xscratch0 conf.fastmem_addr)]
  ++ (if ordered then [Emit.code (Instr.DMB BarrierOp.ISH)] else [])
  ++ (if h1 : bit_size = 8 then
        [Emit.code (Instr.STRB_reg value Xscratch0 Waddr IndexExt.UXTW)]
      else if h2 : bit_size = 16 then
        [Emit.code (Instr.STRH_reg value Xscratch0 Waddr IndexExt.UXTW)]
      else if h3 : bit_size = 32 ∨ bit_size = 64 then
        [Emit.code (Instr.STR_reg value Xscratch0 Waddr IndexExt.UXTW)]
      else
        absurd h (by unfold ValidBitSize; omega))
  ++ (if ordered then [Emit.code (Instr.DMB BarrierOp.ISH)] else [])

/-- `EmitInlineExclusiveWriteMemory<bit_size>`. -/
def EmitInlineExclusiveWriteMemory (abi : Abi) (conf : EmitConfig) (b : Binding)
    (acctype : AccType) (bit_size : Nat) (h : ValidBitSize bit_size) : List Emit :=
  let Wresult := WReg b.Wresult
  let Waddr := WReg b.Waddr
  let value : Reg := ⟨max bit_size 32, b.value⟩
  let ordered := IsOrdered acctype
  let Xscratch0 := XReg abi.Xscratch0
  [Emit.WriteW, Emit.ReadW 1, Emit.ReadReg (max bit_size 32) 2,
    Emit.Realize [Wresult, Waddr, value],
    Emit.code (Instr.MOV Xscratch0 conf.fastmem_addr),
    Emit.code (Instr.ADD Xscratch0 Xscratch0 Waddr IndexExt.UXTW)]
  ++ (if ordered then [Emit.code (Instr.DMB BarrierOp.ISH)] else [])
  ++ (if h1 : bit_size = 8 then
        [Emit.code (Instr.STXRB Wresult value Xscratch0)]
      else if h2 : bit_size = 16 then
        [Emit.code (Instr.STXRH Wresult value Xscratch0)]
      else if h3 : bit_size = 32 ∨ bit_size = 64 then
        [Emit.code (Instr.STXR Wresult value Xscratch0)]
      else
        absurd h (by unfold ValidBitSize; omega))
  ++ (if ordered then [Emit.code (Instr.DMB BarrierOp.ISH)] else [])

/-- `EmitReadMemory`. -/
def EmitReadMemory (acctype : AccType) (fn : LinkTarget) : List Emit :=
  let ordered := IsOrdered acctype
  [Emit.PrepareForCall true [none, some 1], Emit.code (Instr.Relocation fn)]
  ++ (if ordered then [Emit.code (Instr.DMB BarrierOp.ISH)] else [])

/-- `EmitExclusiveReadMemory`. -/
def EmitExclusiveReadMemory (abi : Abi) (acctype : AccType) (fn : LinkTarget) : List Emit :=
  let ordered := IsOrdered acctype
  [Emit.PrepareForCall true [none, some 1],
    Emit.code (Instr.MOV (WReg abi.Xscratch0) 1),
    Emit.code (Instr.STRB_imm (WReg abi.Xscratch0) (XReg abi.Xstate) abi.exclusive_state),
    Emit.code (Instr.Relocation fn)]
  ++ (if ordered then [Emit.code (Instr.DMB BarrierOp.ISH)] else [])

/-- `EmitWriteMemory`. -/
def EmitWriteMemory (acctype : AccType) (fn : LinkTarget) : List Emit :=
  let ordered := IsOrdered acctype
  [Emit.PrepareForCall true [none, some 1, some 2]]
  ++ (if ordered then [Emit.code (Instr.DMB BarrierOp.ISH)] else [])
  ++ [Emit.code (Instr.Relocation fn)]
  ++ (if ordered then [Emit.code (Instr.DMB BarrierOp.ISH)] else [])

/-- The label `end` of `EmitExclusiveWriteMemory`, the only label the source declares. -/
def end_label : Label := 0

/-- `EmitExclusiveWriteMemory`. -/
def EmitExclusiveWriteMemory (abi : Abi) (acctype : AccType) (fn : LinkTarget) : List Emit :=
  let ordered := IsOrdered acctype
  [Emit.PrepareForCall true [none, some 1, some 2]]
  ++ (if ordered then [Emit.code (Instr.DMB BarrierOp.ISH)] else [])
  ++ [Emit.code (Instr.LDRB_imm (WReg abi.Xscratch0) (XReg abi.Xstate) abi.exclusive_state),
      Emit.code (Instr.CBZ (WReg abi.Xscratch0) end_label),
      Emit.code (Instr.STRB_imm WZR (XReg abi.Xstate) abi.exclusive_state),
      Emit.code (Instr.Relocation fn)]
  ++ (if ordered then [Emit.code (Instr.DMB BarrierOp.ISH)] else [])
  ++ [Emit.code (Instr.l end_label)]

/-- The specialisations `EmitIR<IR::Opcode::...>` of this translation unit, one case each.
`acctype` is the immediate access type of the instruction; `A32ClearExclusive` ignores its
instruction. -/
def EmitIR (abi : Abi) (conf : EmitConfig) (b : Binding) (acctype : AccType) :
    Opcode → List Emit
  | Opcode.A32ClearExclusive =>
    if conf.enable_fastmem then [Emit.code Instr.CLREX]
    else [Emit.code (Instr.STR_imm WZR (XReg abi.Xstate) abi.exclusive_state)]
  | Opcode.A32ReadMemory8 =>
    if conf.enable_fastmem then EmitInlineReadMemory abi conf b acctype 8 (by decide)
    else EmitReadMemory acctype LinkTarget.ReadMemory8
  | Opcode.A32ReadMemory16 =>
    if conf.enable_fastmem then EmitInlineReadMemory abi conf b acctype 16 (by decide)
    else EmitReadMemory acctype LinkTarget.ReadMemory16
  | Opcode.A32ReadMemory32 =>
    if conf.enable_fastmem then EmitInlineReadMemory abi conf b acctype 32 (by decide)
    else EmitReadMemory acctype LinkTarget.ReadMemory32
  | Opcode.A32ReadMemory64 =>
    if conf.enable_fastmem then EmitInlineReadMemory abi conf b acctype 64 (by decide)
    else EmitReadMemory acctype LinkTarget.ReadMemory64
  | Opcode.A32ExclusiveReadMemory8 =>
    if conf.enable_fastmem then EmitInlineExclusiveReadMemory abi conf b acctype 8 (by decide)
    else EmitExclusiveReadMemory abi acctype LinkTarget.ExclusiveReadMemory8
  | Opcode.A32ExclusiveReadMemory16 =>
    if conf.enable_fastmem then EmitInlineExclusiveReadMemory abi conf b acctype 16 (by decide)
    else EmitExclusiveReadMemory abi acctype LinkTarget.ExclusiveReadMemory16
  | Opcode.A32ExclusiveReadMemory32 =>
    if conf.enable_fastmem then EmitInlineExclusiveReadMemory abi conf b acctype 32 (by decide)
    else EmitExclusiveReadMemory abi acctype LinkTarget.ExclusiveReadMemory32
  | Opcode.A32ExclusiveReadMemory64 =>
    if conf.enable_fastmem then EmitInlineExclusiveReadMemory abi conf b acctype 64 (by decide)
    else EmitExclusiveReadMemory abi acctype LinkTarget.ExclusiveReadMemory64
  | Opcode.A32WriteMemory8 =>
    if conf.enable_fastmem then EmitInlineWriteMemory abi conf b acctype 8 (by decide)
    else EmitWriteMemory acctype LinkTarget.WriteMemory8
  | Opcode.A32WriteMemory16 =>
    if conf.enable_fastmem then EmitInlineWriteMemory abi conf b acctype 16 (by decide)
    else EmitWriteMemory acctype LinkTarget.WriteMemory16
  | Opcode.A32WriteMemory32 =>
    if conf.enable_fastmem then EmitInlineWriteMemory abi conf b acctype 32 (by decide)
    else EmitWriteMemory acctype LinkTarget.WriteMemory32
  | Opcode.A32WriteMemory64 =>
    if conf.enable_fastmem then EmitInlineWriteMemory abi conf b acctype 64 (by decide)
    else EmitWriteMemory acctype LinkTarget.WriteMemory64
  | Opcode.A32ExclusiveWriteMemory8 =>
    if conf.enable_fastmem then EmitInlineExclusiveWriteMemory abi conf b acctype 8 (by decide)
    else EmitExclusiveWriteMemory abi acctype LinkTarget.ExclusiveWriteMemory8
  | Opcode.A32ExclusiveWriteMemory16 =>
    if conf.enable_fastmem then EmitInlineExclusiveWriteMemory abi conf b acctype 16 (by decide)
    else EmitExclusiveWriteMemory abi acctype LinkTarget.ExclusiveWriteMemory16
  | Opcode.A32ExclusiveWriteMemory32 =>
    if conf.enable_fastmem then EmitInlineExclusiveWriteMemory abi conf b acctype 32 (by decide)
    else EmitExclusiveWriteMemory abi acctype LinkTarget.ExclusiveWriteMemory32
  | Opcode.A32ExclusiveWriteMemory64 =>
    if conf.enable_fastmem then EmitInlineExclusiveWriteMemory abi conf b acctype 64 (by decide)
    else EmitExclusiveWriteMemory abi acctype LinkTarget.ExclusiveWriteMemory64

/-- The instructions of an emission, in order: what the code generator received. -/
def instrs : List Emit → List Instr
  | [] => []
  | Emit.code i :: es => i :: instrs es
  | _ :: es => instrs es

/-! ## Execution of the emitted instructions -/

/-- The host state the emitted instructions act on: the general-purpose registers by number
(entry 31 is SP), byte-addressed memory and the address marked by the local exclusive monitor
if any. -/
structure Machine where
  regs : Nat → Nat
  mem : Nat → Nat
  monitor : Option Nat

/-- Value of a data operand: the low `bits` bits of the register, zero for register 31. -/
def Machine.read (m : Machine) (r : Reg) : Nat :=
  if r.index = 31 then 0 else m.regs r.index % 2 ^ r.bits

/-- Value of a base operand (register 31 is SP). -/
def Machine.readSp (m : Machine) (r : Reg) : Nat :=
  m.regs r.index % 2 ^ r.bits

/-- Write of a destination that may be SP (register 31 is SP). -/
def Machine.writeSp (m : Machine) (r : Reg) (v : Nat) : Machine :=
  { m with regs := fun i => if i = r.index then v % 2 ^ r.bits else m.regs i }

/-- Write of a data operand: a W write clears the upper half of the register, a write to
register 31 is discarded. -/
def Machine.write (m : Machine) (r : Reg) (v : Nat) : Machine :=
  { m with regs := fun i => if i = r.index ∧ r.index ≠ 31 then v % 2 ^ r.bits else m.regs i }

/-- Little-endian load of `n` bytes at address `a`. -/
def loadLE (mem : Nat → Nat) (a : Nat) : Nat → Nat
  | 0 => 0
  | n + 1 => mem (a % 2 ^ 64) % 256 + 256 * loadLE mem (a + 1) n

/-- Little-endian store of the low `n` bytes of `v` at address `a`. -/
def storeLE (mem : Nat → Nat) (a v : Nat) : Nat → Nat → Nat
  | 0 => mem
  | n + 1 => storeLE (fun x => if x = a % 2 ^ 64 then v % 256 else mem x) (a + 1) (v / 256) n

/-- The 64-bit value an extension makes of an index register read at 64 bits. -/
def IndexExt.apply (e : IndexExt) (v : Nat) : Nat :=
  match e with
  | IndexExt.UXTW => v % 2 ^ 32
  | IndexExt.LSL => v % 2 ^ 64
  | IndexExt.SXTW => if v % 2 ^ 32 < 2 ^ 31 then v % 2 ^ 32 else v % 2 ^ 32 + (2 ^ 64 - 2 ^ 32)
  | IndexExt.SXTX => v % 2 ^ 64

/-- Address of a register-offset access `[Xn, Rm, ext]`. -/
def Machine.regAddr (m : Machine) (xn rm : Reg) (ext : IndexExt) : Nat :=
  (m.readSp xn + ext.apply (m.read (XReg rm.index))) % 2 ^ 64

/-- Address of an immediate-offset access `[Xn, #offset]`. -/
def Machine.immAddr (m : Machine) (xn : Reg) (offset : Nat) : Nat :=
  (m.readSp xn + offset) % 2 ^ 64

/-- A load of `n` bytes into `rt`, zero-extended. -/
def Machine.load (m : Machine) (rt : Reg) (a n : Nat) : Machine :=
  m.write rt (loadLE m.mem a n)

/-- A store of the low `n` bytes of `rt`. -/
def Machine.store (m : Machine) (rt : Reg) (a n : Nat) : Machine :=
  { m with mem := storeLE m.mem a (m.read rt) n }

/-- A load-exclusive: the load, and the local monitor marks the address. -/
def Machine.loadExcl (m : Machine) (rt : Reg) (a n : Nat) : Machine :=
  { m.load rt a n with monitor := some a }

/-- A store-exclusive: when the local monitor marks the address the store is performed and the
status register receives 0, otherwise nothing is stored and it receives 1; the monitor is
cleared either way. -/
def Machine.storeExcl (m : Machine) (ws rt : Reg) (a n : Nat) : Machine :=
  if m.monitor = some a then
    ({ m with mem := storeLE m.mem a (m.read rt) n, monitor := none }).write ws 0
  else
    ({ m with monitor := none }).write ws 1

/-- Effect of one instruction on the state; a branch, a label or a barrier has none. The
out-of-line routines are the parameter `ext`: a relocatable call applies the routine. -/
def step (ext : LinkTarget → Machine → Machine) (i : Instr) (m : Machine) : Machine :=
  match i with
  | Instr.MOV rd imm => m.write rd imm
  | Instr.ADD rd rn rm e => m.writeSp rd (m.readSp rn + e.apply (m.read (XReg rm.index)))
  | Instr.LDRB_reg rt xn rm e => m.load rt (m.regAddr xn rm e) 1
  | Instr.LDRH_reg rt xn rm e => m.load rt (m.regAddr xn rm e) 2
  | Instr.LDR_reg rt xn rm e => m.load rt (m.regAddr xn rm e) (rt.bits / 8)
  | Instr.STRB_reg rt xn rm e => m.store rt (m.regAddr xn rm e) 1
  | Instr.STRH_reg rt xn rm e => m.store rt (m.regAddr xn rm e) 2
  | Instr.STR_reg rt xn rm e => m.store rt (m.regAddr xn rm e) (rt.bits / 8)
  | Instr.LDXRB rt xn => m.loadExcl rt (m.readSp xn) 1
  | Instr.LDXRH rt xn => m.loadExcl rt (m.readSp xn) 2
  | Instr.LDXR rt xn => m.loadExcl rt (m.readSp xn) (rt.bits / 8)
  | Instr.STXRB ws rt xn => m.storeExcl ws rt (m.readSp xn) 1
  | Instr.STXRH ws rt xn => m.storeExcl ws rt (m.readSp xn) 2
  | Instr.STXR ws rt xn => m.storeExcl ws rt (m.readSp xn) (rt.bits / 8)
  | Instr.LDRB_imm rt xn off => m.load rt (m.immAddr xn off) 1
  | Instr.STRB_imm rt xn off => m.store rt (m.immAddr xn off) 1
  | Instr.STR_imm rt xn off => m.store rt (m.immAddr xn off) (rt.bits / 8)
  | Instr.CBZ _ _ => m
  | Instr.DMB _ => m
  | Instr.CLREX => { m with monitor := none }
  | Instr.l _ => m
  | Instr.Relocation fn => ext fn m

/-- Execution of an instruction sequence: the final state. The first argument is the label
being branched to, if a branch is in flight: the instructions up to the binding of that label
are skipped. The emitters only branch forwards, to a label bound later in the same sequence. -/
def run (ext : LinkTarget → Machine → Machine) :
    Option Label → List Instr → Machine → Machine
  | _, [], m => m
  | some t, Instr.l lbl :: is, m => if lbl = t then run ext none is m else run ext (some t) is m
  | some t, _ :: is, m => run ext (some t) is m
  | none, Instr.CBZ rt t :: is, m =>
    if m.read rt = 0 then run ext (some t) is m else run ext none is m
  | none, i :: is, m => run ext none is (step ext i m)

/-- Execution of an instruction sequence: the instructions executed, in order. It follows the
same control flow as `run`; a label is a position, not an instruction. -/
def trace (ext : LinkTarget → Machine → Machine) :
    Option Label → List Instr → Machine → List Instr
  | _, [], _ => []
  | some t, Instr.l lbl :: is, m =>
    if lbl = t then trace ext none is m else trace ext (some t) is m
  | some t, _ :: is, m => trace ext (some t) is m
  | none, Instr.CBZ rt t :: is, m =>
    Instr.CBZ rt t :: (if m.read rt = 0 then trace ext (some t) is m else trace ext none is m)
  | none, Instr.l _ :: is, m => trace ext none is m
  | none, i :: is, m => i :: trace ext none is (step ext i m)

/-- The state after executing what an emission handed to the code generator. -/
def exec (ext : LinkTarget → Machine → Machine) (es : List Emit) (m : Machine) : Machine :=
  run ext none (instrs es) m

/-- The instructions executed from what an emission handed to the code generator. -/
def executed (ext : LinkTarget → Machine → Machine) (es : List Emit) (m : Machine) :
    List Instr :=
  trace ext none (instrs es) m

/-- Address of the exclusive flag: `Xstate` plus `offsetof(A32JitState, exclusive_state)`. -/
def flagAddr (abi : Abi) (m : Machine) : Nat :=
  m.immAddr (XReg abi.Xstate) abi.exclusive_state

/-- The exclusive flag: the byte at `flagAddr`. -/
def flag (abi : Abi) (m : Machine) : Nat :=
  m.mem (flagAddr abi m) % 256

/-- The relocatable calls among a list of instructions, in order. -/
def callsOf : List Instr → List LinkTarget
  | [] => []
  | Instr.Relocation fn :: is => fn :: callsOf is
  | _ :: is => callsOf is

/-- The barriers among a list of instructions, in order. -/
def barriersOf : List Instr → List BarrierOp
  | [] => []
  | Instr.DMB op :: is => op :: barriersOf is
  | _ :: is => barriersOf is

/-! ## Classification of opcodes, routines and instructions -/

/-- Width in bits named by an opcode (0 for `A32ClearExclusive`, which names none). -/
def Opcode.bit_size : Opcode → Nat
  | Opcode.A32ClearExclusive => 0
  | Opcode.A32ReadMemory8 | Opcode.A32ExclusiveReadMemory8
  | Opcode.A32WriteMemory8 | Opcode.A32ExclusiveWriteMemory8 => 8
  | Opcode.A32ReadMemory16 | Opcode.A32ExclusiveReadMemory16
  | Opcode.A32WriteMemory16 | Opcode.A32ExclusiveWriteMemory16 => 16
  | Opcode.A32ReadMemory32 | Opcode.A32ExclusiveReadMemory32
  | Opcode.A32WriteMemory32 | Opcode.A32ExclusiveWriteMemory32 => 32
  | Opcode.A32ReadMemory64 | Opcode.A32ExclusiveReadMemory64
  | Opcode.A32WriteMemory64 | Opcode.A32ExclusiveWriteMemory64 => 64

/-- Direction named by an opcode: `true` for a write. -/
def Opcode.isWrite : Opcode → Bool
  | Opcode.A32WriteMemory8 | Opcode.A32WriteMemory16 | Opcode.A32WriteMemory32
  | Opcode.A32WriteMemory64 | Opcode.A32ExclusiveWriteMemory8
  | Opcode.A32ExclusiveWriteMemory16 | Opcode.A32ExclusiveWriteMemory32
  | Opcode.A32ExclusiveWriteMemory64 => true
  | _ => false

/-- Exclusivity named by an opcode. -/
def Opcode.isExclusive : Opcode → Bool
  | Opcode.A32ExclusiveReadMemory8 | Opcode.A32ExclusiveReadMemory16
  | Opcode.A32ExclusiveReadMemory32 | Opcode.A32ExclusiveReadMemory64
  | Opcode.A32ExclusiveWriteMemory8 | Opcode.A32ExclusiveWriteMemory16
  | Opcode.A32ExclusiveWriteMemory32 | Opcode.A32ExclusiveWriteMemory64 => true
  | _ => false

/-- The sixteen read/write opcodes. -/
def Opcode.isMemory : Opcode → Bool
  | Opcode.A32ClearExclusive => false
  | _ => true

/-- Width in bits named by a routine. -/
def LinkTarget.bit_size : LinkTarget → Nat
  | LinkTarget.ReadMemory8 | LinkTarget.ExclusiveReadMemory8
  | LinkTarget.WriteMemory8 | LinkTarget.ExclusiveWriteMemory8 => 8
  | LinkTarget.ReadMemory16 | LinkTarget.ExclusiveReadMemory16
  | LinkTarget.WriteMemory16 | LinkTarget.ExclusiveWriteMemory16 => 16
  | LinkTarget.ReadMemory32 | LinkTarget.ExclusiveReadMemory32
  | LinkTarget.WriteMemory32 | LinkTarget.ExclusiveWriteMemory32 => 32
  | LinkTarget.ReadMemory64 | LinkTarget.ExclusiveReadMemory64
  | LinkTarget.WriteMemory64 | LinkTarget.ExclusiveWriteMemory64 => 64

/-- Direction named by a routine: `true` for a write. -/
def LinkTarget.isWrite : LinkTarget → Bool
  | LinkTarget.WriteMemory8 | LinkTarget.WriteMemory16 | LinkTarget.WriteMemory32
  | LinkTarget.WriteMemory64 | LinkTarget.ExclusiveWriteMemory8
  | LinkTarget.ExclusiveWriteMemory16 | LinkTarget.ExclusiveWriteMemory32
  | LinkTarget.ExclusiveWriteMemory64 => true
  | _ => false

/-- Exclusivity named by a routine. -/
def LinkTarget.isExclusive : LinkTarget → Bool
  | LinkTarget.ExclusiveReadMemory8 | LinkTarget.ExclusiveReadMemory16
  | LinkTarget.ExclusiveReadMemory32 | LinkTarget.ExclusiveReadMemory64
  | LinkTarget.ExclusiveWriteMemory8 | LinkTarget.ExclusiveWriteMemory16
  | LinkTarget.ExclusiveWriteMemory32 | LinkTarget.ExclusiveWriteMemory64 => true
  | _ => false

/-- A barrier instruction. -/
def isBarrier : Instr → Bool
  | Instr.DMB _ => true
  | _ => false

/-- A relocatable call. -/
def isCall : Instr → Bool
  | Instr.Relocation _ => true
  | _ => false

/-- A load, store, load-exclusive or store-exclusive addressed through a register computed
from the fastmem base: the register-offset and the exclusive forms. -/
def isGuestAccess : Instr → Bool
  | Instr.LDRB_reg .. | Instr.LDRH_reg .. | Instr.LDR_reg ..
  | Instr.STRB_reg .. | Instr.STRH_reg .. | Instr.STR_reg ..
  | Instr.LDXRB .. | Instr.LDXRH .. | Instr.LDXR ..
  | Instr.STXRB .. | Instr.STXRH .. | Instr.STXR .. => true
  | _ => false

/-- A store to the exclusive flag: an immediate-offset store through `Xstate` at the offset of
`exclusive_state`. -/
def isFlagStore (abi : Abi) : Instr → Bool
  | Instr.STRB_imm _ xn off | Instr.STR_imm _ xn off =>
    xn == XReg abi.Xstate && off == abi.exclusive_state
  | _ => false

/-- A load of the exclusive flag. -/
def isFlagLoad (abi : Abi) : Instr → Bool
  | Instr.LDRB_imm _ xn off => xn == XReg abi.Xstate && off == abi.exclusive_state
  | _ => false

/-- The positions, counted from `k`, of the instructions of a sequence that satisfy `p`. -/
def positionsFrom (p : Instr → Bool) : Nat → List Instr → List Nat
  | _, [] => []
  | k, i :: is => if p i then k :: positionsFrom p (k + 1) is else positionsFrom p (k + 1) is

/-- The positions, counted from 0, of the instructions of a sequence that satisfy `p`. -/
def positions (p : Instr → Bool) (is : List Instr) : List Nat := positionsFrom p 0 is

/-- Number of bits of memory an instruction accesses (0 if it accesses none). The `LDR`, `STR`,
`LDXR` and `STXR` forms access as many bits as their data register has. -/
def accessBits : Instr → Nat
  | Instr.LDRB_reg .. | Instr.STRB_reg .. | Instr.LDXRB .. | Instr.STXRB ..
  | Instr.LDRB_imm .. | Instr.STRB_imm .. => 8
  | Instr.LDRH_reg .. | Instr.STRH_reg .. | Instr.LDXRH .. | Instr.STXRH .. => 16
  | Instr.LDR_reg rt .. | Instr.STR_reg rt .. | Instr.LDXR rt .. | Instr.STXR _ rt ..
  | Instr.STR_imm rt .. => rt.bits
  | _ => 0

/-- The out-of-line routines leave the register `Xstate` and the exclusive flag as they were:
the assumption under which the flag can be followed across a relocatable call. -/
def PreservesFlag (abi : Abi) (ext : LinkTarget → Machine → Machine) : Prop :=
  ∀ fn m, (ext fn m).regs abi.Xstate = m.regs abi.Xstate ∧ flag abi (ext fn m) = flag abi m

/-! ## The routing the specification describes -/

/-- The specification's routing table for the fallback path: the routine for a direction, an
exclusivity and a width. -/
def routineFor (isWrite isExclusive : Bool) (bit_size : Nat) : Option LinkTarget :=
  match isWrite, isExclusive, bit_size with
  | false, false, 8 => some LinkTarget.ReadMemory8
  | false, false, 16 => some LinkTarget.ReadMemory16
  | false, false, 32 => some LinkTarget.ReadMemory32
  | false, false, 64 => some LinkTarget.ReadMemory64
  | false, true, 8 => some LinkTarget.ExclusiveReadMemory8
  | false, true, 16 => some LinkTarget.ExclusiveReadMemory16
  | false, true, 32 => some LinkTarget.ExclusiveReadMemory32
  | false, true, 64 => some LinkTarget.ExclusiveReadMemory64
  | true, false, 8 => some LinkTarget.WriteMemory8
  | true, false, 16 => some LinkTarget.WriteMemory16
  | true, false, 32 => some LinkTarget.WriteMemory32
  | true, false, 64 => some LinkTarget.WriteMemory64
  | true, true, 8 => some LinkTarget.ExclusiveWriteMemory8
  | true, true, 16 => some LinkTarget.ExclusiveWriteMemory16
  | true, true, 32 => some LinkTarget.ExclusiveWriteMemory32
  | true, true, 64 => some LinkTarget.ExclusiveWriteMemory64
  | _, _, _ => none

/-- The specification's routing table for the fastmem path: the inline emitter for a direction
and an exclusivity, at a width. -/
def inlineEmitterFor (isWrite isExclusive : Bool) (abi : Abi) (conf : EmitConfig)
    (b : Binding) (acctype : AccType) (bit_size : Nat) (h : ValidBitSize bit_size) :
    List Emit :=
  match isWrite, isExclusive with
  | false, false => EmitInlineReadMemory abi conf b acctype bit_size h
  | false, true => EmitInlineExclusiveReadMemory abi conf b acctype bit_size h
  | true, false => EmitInlineWriteMemory abi conf b acctype bit_size h
  | true, true => EmitInlineExclusiveWriteMemory abi conf b acctype bit_size h

/-- The specification's routing table for the fallback path: the fallback emitter for a
direction and an exclusivity, calling a routine. -/
def fallbackEmitterFor (isWrite isExclusive : Bool) (abi : Abi) (acctype : AccType)
    (fn : LinkTarget) : List Emit :=
  match isWrite, isExclusive with
  | false, false => EmitReadMemory acctype fn
  | false, true => EmitExclusiveReadMemory abi acctype fn
  | true, false => EmitWriteMemory acctype fn
  | true, true => EmitExclusiveWriteMemory abi acctype fn

/-- The host address of a fastmem access: the fastmem base plus the zero-extended low 32 bits
of the address register, as a 64-bit sum. -/
def fastmemAddr (conf : EmitConfig) (b : Binding) (m : Machine) : Nat :=
  (conf.fastmem_addr + m.regs b.Waddr % 2 ^ 32) % 2 ^ 64

/-- The register an access transfers. -/
def dataReg : Instr → Option Reg
  | Instr.LDRB_reg rt .. | Instr.LDRH_reg rt .. | Instr.LDR_reg rt ..
  | Instr.STRB_reg rt .. | Instr.STRH_reg rt .. | Instr.STR_reg rt ..
  | Instr.LDXRB rt .. | Instr.LDXRH rt .. | Instr.LDXR rt ..
  | Instr.STXRB _ rt .. | Instr.STXRH _ rt .. | Instr.STXR _ rt ..
  | Instr.LDRB_imm rt .. | Instr.STRB_imm rt .. | Instr.STR_imm rt .. => some rt
  | _ => none

/-- The extended register operand of a register-offset access or of an `ADD`, with its
extension. -/
def indexOperand : Instr → Option (Reg × IndexExt)
  | Instr.ADD _ _ rm e
  | Instr.LDRB_reg _ _ rm e | Instr.LDRH_reg _ _ rm e | Instr.LDR_reg _ _ rm e
  | Instr.STRB_reg _ _ rm e | Instr.STRH_reg _ _ rm e | Instr.STR_reg _ _ rm e => some (rm, e)
  | _ => none

/-- The host's clear-exclusive instruction. -/
def isClrex : Instr → Bool
  | Instr.CLREX => true
  | _ => false

/-- The binding of label `lbl`. -/
def isLabel (lbl : Label) : Instr → Bool
  | Instr.l x => x == lbl
  | _ => false

/-- A load or store with an immediate offset from `Xstate`, whatever the offset: an access to
a field of the state structure. -/
def isStateAccess (abi : Abi) : Instr → Bool
  | Instr.LDRB_imm _ xn _ | Instr.STRB_imm _ xn _ | Instr.STR_imm _ xn _ =>
    xn == XReg abi.Xstate
  | _ => false

/-- The event is the call preparation (`ctx.reg_alloc.PrepareForCall`). -/
def isCallPreparation : Emit → Bool
  | Emit.PrepareForCall .. => true
  | _ => false

/-- The event is the emission of a barrier instruction. -/
def isBarrierEvent : Emit → Bool
  | Emit.code i => isBarrier i
  | _ => false

/-- The positions, counted from `k`, of the events of an emission that satisfy `p`. -/
def eventPositionsFrom (p : Emit → Bool) : Nat → List Emit → List Nat
  | _, [] => []
  | k, e :: es =>
    if p e then k :: eventPositionsFrom p (k + 1) es else eventPositionsFrom p (k + 1) es

/-- The positions, counted from 0, of the events of an emission that satisfy `p`. -/
def eventPositions (p : Emit → Bool) (es : List Emit) : List Nat := eventPositionsFrom p 0 es

/-- The flag lies outside the mapping of the guest address space at the fastmem base: no
access of up to eight bytes at a 32-bit guest address reaches it. -/
def FlagOutsideFastmem (abi : Abi) (conf : EmitConfig) (m : Machine) : Prop :=
  ∀ g, g < 2 ^ 32 + 8 → flagAddr abi m ≠ (conf.fastmem_addr + g) % 2 ^ 64

/-! ## Execution of a whole emission -/

/-- Execution of a whole emission, requests to the register allocator included: the final
state. An instruction of the emitter acts as in `run`; at a request to the register allocator
the code the allocator emits there is executed, and its effect is the parameter `alloc`.
Requests passed over by a branch in flight are skipped with the instructions around them. -/
def runAll (alloc : Emit → Machine → Machine) (ext : LinkTarget → Machine → Machine) :
    Option Label → List Emit → Machine → Machine
  | _, [], m => m
  | some t, Emit.code (Instr.l lbl) :: es, m =>
    if lbl = t then runAll alloc ext none es m else runAll alloc ext (some t) es m
  | some t, _ :: es, m => runAll alloc ext (some t) es m
  | none, Emit.code (Instr.CBZ rt t) :: es, m =>
    if m.read rt = 0 then runAll alloc ext (some t) es m else runAll alloc ext none es m
  | none, Emit.code i :: es, m => runAll alloc ext none es (step ext i m)
  | none, e :: es, m => runAll alloc ext none es (alloc e m)

/-- Execution of a whole emission: the instructions of the emitter that are executed, in
order, with the control flow of `runAll`. The allocator's own instructions are not listed. -/
def traceAll (alloc : Emit → Machine → Machine) (ext : LinkTarget → Machine → Machine) :
    Option Label → List Emit → Machine → List Instr
  | _, [], _ => []
  | some t, Emit.code (Instr.l lbl) :: es, m =>
    if lbl = t then traceAll alloc ext none es m else traceAll alloc ext (some t) es m
  | some t, _ :: es, m => traceAll alloc ext (some t) es m
  | none, Emit.code (Instr.CBZ rt t) :: es, m =>
    Instr.CBZ rt t ::
      (if m.read rt = 0 then traceAll alloc ext (some t) es m
       else traceAll alloc ext none es m)
  | none, Emit.code (Instr.l _) :: es, m => traceAll alloc ext none es m
  | none, Emit.code i :: es, m => i :: traceAll alloc ext none es (step ext i m)
  | none, e :: es, m => traceAll alloc ext none es (alloc e m)

/-- Modelled from the spec: the code the register allocator emits for a call preparation
(`RegAlloc::PrepareForCall`, defined outside this translation unit). Section 4.4 of the
specification: "prepare the call per host calling convention with address and value as
arguments". Under the host calling convention the argument in position `k` travels in
register `Xk`: each argument passed is copied there from the register the binding holds the
operand in (`args[1]` the address, `args[2]` the value). A position passed as `{}`, every other
register, memory and the monitor are left alone, and so is the state at every other
request. -/
def specAlloc (b : Binding) : Emit → Machine → Machine
  | Emit.PrepareForCall _ args, m =>
    { m with regs := fun k =>
        match args.get? k with
        | some (some 1) => m.regs b.Waddr
        | some (some 2) => m.regs b.value
        | _ => m.regs k }
  | _, m => m

/-! ## Concrete inputs -/

/-- A host convention: `Xstate` is X28, `Xscratch0` is X16, the flag is at offset 320. -/
def sampleAbi : Abi := ⟨28, 16, 320⟩

/-- A binding of the operands to X1..X4. -/
def sampleBinding : Binding := ⟨1, 2, 3, 4⟩

/-- Out-of-line routines that return 0 in X0 and change nothing else. -/
def sampleExt : LinkTarget → Machine → Machine :=
  fun _ m => { m with regs := fun i => if i = 0 then 0 else m.regs i }

/-- A configuration with fastmem enabled and the guest address space mapped at 65536. -/
def sampleFastmem : EmitConfig := ⟨true, 65536⟩

/-- A machine whose state structure is at 4096, with the exclusive flag (the byte at 4416)
equal to `f`, the byte after it equal to 171, every other byte and every other register 0, and
the exclusive monitor open. -/
def sampleMachine (f : Nat) : Machine :=
  ⟨fun i => if i = 28 then 4096 else 0,
   fun a => if a = 4416 then f else if a = 4417 then 171 else 0, none⟩

/-- A machine whose state structure is at 4096, in which every other register `i` holds
`100 + i`, every byte of memory is 0 (so the exclusive flag is 0) and the exclusive monitor is
open. -/
def countingMachine : Machine :=
  ⟨fun i => if i = 28 then 4096 else 100 + i, fun _ => 0, none⟩

/-! ## Lemmas on the execution of the fallback sequences -/

theorem loadLE_one (mem : Nat → Nat) (a : Nat) : loadLE mem a 1 = mem (a % 2 ^ 64) % 256 := by
  simp [loadLE]

theorem immAddr_mod (m : Machine) (xn : Reg) (off : Nat) :
    m.immAddr xn off % 2 ^ 64 = m.immAddr xn off := by
  simp [Machine.immAddr]

theorem loadLE_flag (abi : Abi) (m : Machine) :
    loadLE m.mem (m.immAddr (XReg abi.Xstate) abi.exclusive_state) 1 = flag abi m := by
  rw [loadLE_one, immAddr_mod]; rfl

theorem read_write_same (m : Machine) (r : Reg) (v : Nat) :
    (m.write r v).read r = if r.index = 31 then 0 else v % 2 ^ r.bits := by
  by_cases h : r.index = 31 <;> simp [Machine.read, Machine.write, h]

theorem run_excl_write_skip (abi : Abi) (ext : LinkTarget → Machine → Machine)
    (acctype : AccType) (fn : LinkTarget) (m : Machine) (hflag : flag abi m = 0) :
    run ext none (instrs (EmitExclusiveWriteMemory abi acctype fn)) m
      = m.write (WReg abi.Xscratch0) 0 := by
  have hl := loadLE_flag abi m
  rw [hflag] at hl
  cases h : IsOrdered acctype <;>
    simp [EmitExclusiveWriteMemory, h, instrs, run, step, Machine.load, hl, read_write_same,
      end_label]

theorem trace_excl_write_skip (abi : Abi) (ext : LinkTarget → Machine → Machine)
    (acctype : AccType) (fn : LinkTarget) (m : Machine) (hflag : flag abi m = 0) :
    trace ext none (instrs (EmitExclusiveWriteMemory abi acctype fn)) m
      = (if IsOrdered acctype then [Instr.DMB BarrierOp.ISH] else [])
            ++ [Instr.LDRB_imm (WReg abi.Xscratch0) (XReg abi.Xstate) abi.exclusive_state,
                Instr.CBZ (WReg abi.Xscratch0) end_label] := by
  have hl := loadLE_flag abi m
  rw [hflag] at hl
  cases h : IsOrdered acctype <;>
    simp [EmitExclusiveWriteMemory, h, instrs, trace, step, Machine.load, hl, read_write_same,
      end_label]

theorem flag_lt (abi : Abi) (m : Machine) : flag abi m < 256 := by
  unfold flag; omega

theorem flagAddr_congr (abi : Abi) (m1 m2 : Machine)
    (h : m1.regs abi.Xstate = m2.regs abi.Xstate) : flagAddr abi m1 = flagAddr abi m2 := by
  simp [flagAddr, Machine.immAddr, Machine.readSp, XReg, h]

theorem write_regs_other (m : Machine) (r : Reg) (v i : Nat) (h : i ≠ r.index) :
    (m.write r v).regs i = m.regs i := by
  simp [Machine.write, h]

theorem flagAddr_write (abi : Abi) (m : Machine) (v : Nat)
    (hs : abi.Xscratch0 ≠ abi.Xstate) :
    flagAddr abi (m.write (WReg abi.Xscratch0) v) = flagAddr abi m :=
  flagAddr_congr abi _ _ (write_regs_other m _ v _ (by simpa [WReg] using hs.symm))

theorem flagAddr_store (abi : Abi) (m : Machine) (rt : Reg) (a n : Nat) :
    flagAddr abi (m.store rt a n) = flagAddr abi m := rfl

theorem flag_store_byte (abi : Abi) (m : Machine) (rt : Reg) :
    flag abi (m.store rt (flagAddr abi m) 1) = m.read rt % 256 := by
  have h1 : flagAddr abi (m.store rt (flagAddr abi m) 1) = flagAddr abi m := rfl
  have h2 : flagAddr abi m % 2 ^ 64 = flagAddr abi m := immAddr_mod _ _ _
  unfold flag
  rw [h1]
  show (storeLE m.mem (flagAddr abi m) (m.read rt) 1) (flagAddr abi m) % 256 = _
  simp only [storeLE, h2, if_true, Nat.mod_mod]

theorem run_excl_write_armed (abi : Abi) (ext : LinkTarget → Machine → Machine)
    (acctype : AccType) (fn : LinkTarget) (m : Machine) (hflag : flag abi m ≠ 0)
    (h31 : abi.Xscratch0 ≠ 31) (hs : abi.Xscratch0 ≠ abi.Xstate) :
    run ext none (instrs (EmitExclusiveWriteMemory abi acctype fn)) m
      = ext fn ((m.write (WReg abi.Xscratch0) (flag abi m)).store WZR (flagAddr abi m) 1) := by
  have hl := loadLE_flag abi m
  have hlt := flag_lt abi m
  have hr : (m.write (WReg abi.Xscratch0) (flag abi m)).read (WReg abi.Xscratch0) ≠ 0 := by
    rw [read_write_same]
    simp only [WReg, h31, if_false]
    omega
  have ha := flagAddr_write abi m (flag abi m) hs
  unfold flagAddr at ha
  cases h : IsOrdered acctype <;>
    simp [EmitExclusiveWriteMemory, h, instrs, run, step, Machine.load, hl, hr, end_label, ha,
      flagAddr]

theorem trace_excl_write_armed (abi : Abi) (ext : LinkTarget → Machine → Machine)
    (acctype : AccType) (fn : LinkTarget) (m : Machine) (hflag : flag abi m ≠ 0)
    (h31 : abi.Xscratch0 ≠ 31) :
    trace ext none (instrs (EmitExclusiveWriteMemory abi acctype fn)) m
      = (if IsOrdered acctype then [Instr.DMB BarrierOp.ISH] else [])
          ++ [Instr.LDRB_imm (WReg abi.Xscratch0) (XReg abi.Xstate) abi.exclusive_state,
              Instr.CBZ (WReg abi.Xscratch0) end_label,
              Instr.STRB_imm WZR (XReg abi.Xstate) abi.exclusive_state,
              Instr.Relocation fn]
          ++ (if IsOrdered acctype then [Instr.DMB BarrierOp.ISH] else []) := by
  have hl := loadLE_flag abi m
  have hlt := flag_lt abi m
  have hr : (m.write (WReg abi.Xscratch0) (flag abi m)).read (WReg abi.Xscratch0) ≠ 0 := by
    rw [read_write_same]
    simp only [WReg, h31, if_false]
    omega
  cases h : IsOrdered acctype <;>
    simp [EmitExclusiveWriteMemory, h, instrs, trace, step, Machine.load, hl, hr, end_label]

theorem run_excl_read (abi : Abi) (ext : LinkTarget → Machine → Machine)
    (acctype : AccType) (fn : LinkTarget) (m : Machine)
    (hs : abi.Xscratch0 ≠ abi.Xstate) :
    run ext none (instrs (EmitExclusiveReadMemory abi acctype fn)) m
      = ext fn ((m.write (WReg abi.Xscratch0) 1).store (WReg abi.Xscratch0)
          (flagAddr abi m) 1) := by
  have ha := flagAddr_write abi m 1 hs
  unfold flagAddr at ha
  cases h : IsOrdered acctype <;>
    simp [EmitExclusiveReadMemory, h, instrs, run, step, ha, flagAddr]

theorem trace_excl_read (abi : Abi) (ext : LinkTarget → Machine → Machine)
    (acctype : AccType) (fn : LinkTarget) (m : Machine) :
    trace ext none (instrs (EmitExclusiveReadMemory abi acctype fn)) m
      = [Instr.MOV (WReg abi.Xscratch0) 1,
          Instr.STRB_imm (WReg abi.Xscratch0) (XReg abi.Xstate) abi.exclusive_state,
          Instr.Relocation fn]
        ++ (if IsOrdered acctype then [Instr.DMB BarrierOp.ISH] else []) := by
  cases h : IsOrdered acctype <;>
    simp [EmitExclusiveReadMemory, h, instrs, trace, step]

theorem EmitIR_exclusive_write (abi : Abi) (fa : Nat) (b : Binding) (acctype : AccType)
    (op : Opcode) (hop : op.isWrite = true ∧ op.isExclusive = true) :
    ∃ fn, EmitIR abi ⟨false, fa⟩ b acctype op = EmitExclusiveWriteMemory abi acctype fn
      ∧ fn.isWrite = true ∧ fn.isExclusive = true ∧ fn.bit_size = op.bit_size := by
  cases op <;> simp [Opcode.isWrite, Opcode.isExclusive] at hop
  · exact ⟨LinkTarget.ExclusiveWriteMemory8, rfl, rfl, rfl, rfl⟩
  · exact ⟨LinkTarget.ExclusiveWriteMemory16, rfl, rfl, rfl, rfl⟩
  · exact ⟨LinkTarget.ExclusiveWriteMemory32, rfl, rfl, rfl, rfl⟩
  · exact ⟨LinkTarget.ExclusiveWriteMemory64, rfl, rfl, rfl, rfl⟩

theorem EmitIR_exclusive_read (abi : Abi) (fa : Nat) (b : Binding) (acctype : AccType)
    (op : Opcode) (hop : op.isWrite = false ∧ op.isExclusive = true) :
    ∃ fn, EmitIR abi ⟨false, fa⟩ b acctype op = EmitExclusiveReadMemory abi acctype fn
      ∧ fn.isWrite = false ∧ fn.isExclusive = true ∧ fn.bit_size = op.bit_size := by
  cases op <;> simp [Opcode.isWrite, Opcode.isExclusive] at hop
  · exact ⟨LinkTarget.ExclusiveReadMemory8, rfl, rfl, rfl, rfl⟩
  · exact ⟨LinkTarget.ExclusiveReadMemory16, rfl, rfl, rfl, rfl⟩
  · exact ⟨LinkTarget.ExclusiveReadMemory32, rfl, rfl, rfl, rfl⟩
  · exact ⟨LinkTarget.ExclusiveReadMemory64, rfl, rfl, rfl, rfl⟩

theorem callsOf_append (xs ys : List Instr) : callsOf (xs ++ ys) = callsOf xs ++ callsOf ys := by
  induction xs with
  | nil => rfl
  | cons x xs ih => cases x <;> simp [callsOf, ih]

theorem callsOf_barrier (c : Bool) :
    callsOf (if c = true then [Instr.DMB BarrierOp.ISH] else []) = [] := by
  cases c <;> rfl

theorem calls_excl_write_skip (abi : Abi) (ext : LinkTarget → Machine → Machine)
    (acctype : AccType) (fn : LinkTarget) (m : Machine) (hflag : flag abi m = 0) :
    callsOf (trace ext none (instrs (EmitExclusiveWriteMemory abi acctype fn)) m) = [] := by
  rw [trace_excl_write_skip abi ext acctype fn m hflag, callsOf_append, callsOf_barrier]
  rfl

theorem calls_excl_write_armed (abi : Abi) (ext : LinkTarget → Machine → Machine)
    (acctype : AccType) (fn : LinkTarget) (m : Machine) (hflag : flag abi m ≠ 0)
    (h31 : abi.Xscratch0 ≠ 31) :
    callsOf (trace ext none (instrs (EmitExclusiveWriteMemory abi acctype fn)) m) = [fn] := by
  rw [trace_excl_write_armed abi ext acctype fn m hflag h31, callsOf_append, callsOf_append,
    callsOf_barrier]
  rfl

theorem flag_excl_read (abi : Abi) (ext : LinkTarget → Machine → Machine)
    (acctype : AccType) (fn : LinkTarget) (m : Machine)
    (h31 : abi.Xscratch0 ≠ 31) (hs : abi.Xscratch0 ≠ abi.Xstate)
    (hext : PreservesFlag abi ext) :
    flag abi (run ext none (instrs (EmitExclusiveReadMemory abi acctype fn)) m) = 1 := by
  rw [run_excl_read abi ext acctype fn m hs, (hext fn _).2]
  have ha := flagAddr_write abi m 1 hs
  rw [← ha, flag_store_byte, read_write_same]
  simp [WReg, h31]

theorem flag_excl_write (abi : Abi) (ext : LinkTarget → Machine → Machine)
    (acctype : AccType) (fn : LinkTarget) (m : Machine)
    (h31 : abi.Xscratch0 ≠ 31) (hs : abi.Xscratch0 ≠ abi.Xstate)
    (hext : PreservesFlag abi ext) :
    flag abi (run ext none (instrs (EmitExclusiveWriteMemory abi acctype fn)) m) = 0 := by
  by_cases hflag : flag abi m = 0
  · rw [run_excl_write_skip abi ext acctype fn m hflag]
    have ha := flagAddr_write abi m 0 hs
    unfold flag at hflag ⊢
    rw [ha]
    exact hflag
  · rw [run_excl_write_armed abi ext acctype fn m hflag h31 hs, (hext fn _).2]
    have ha := flagAddr_write abi m (flag abi m) hs
    rw [← ha, flag_store_byte]
    simp [Machine.read, WZR]

theorem flag_clear_exclusive (abi : Abi) (m : Machine) :
    flag abi (m.store WZR (flagAddr abi m) 4) = 0 := by
  have h1 : flagAddr abi (m.store WZR (flagAddr abi m) 4) = flagAddr abi m := rfl
  have h2 : flagAddr abi m % 2 ^ 64 = flagAddr abi m := immAddr_mod _ _ _
  unfold flag
  rw [h1]
  show (storeLE m.mem (flagAddr abi m) (m.read WZR) 4) (flagAddr abi m) % 256 = _
  have h0 : m.read WZR = 0 := by simp [Machine.read, WZR]
  simp only [storeLE, h0, h2]
  split_ifs <;> simp

theorem sampleExt_preservesFlag : PreservesFlag sampleAbi sampleExt := by
  intro fn m
  constructor
  · simp [sampleExt, sampleAbi]
  · simp [flag, flagAddr, Machine.immAddr, Machine.readSp, XReg, sampleExt, sampleAbi]

theorem positions_excl_write (abi : Abi) (acctype : AccType) (fn : LinkTarget) :
    ∃ i j, positions (isFlagStore abi) (instrs (EmitExclusiveWriteMemory abi acctype fn)) = [i]
      ∧ positions isCall (instrs (EmitExclusiveWriteMemory abi acctype fn)) = [j] ∧ i < j := by
  cases h : IsOrdered acctype
  · exact ⟨2, 3, by simp [EmitExclusiveWriteMemory, h, instrs, positions, positionsFrom,
      isFlagStore, isCall, WZR, XReg, WReg]⟩
  · exact ⟨3, 4, by simp [EmitExclusiveWriteMemory, h, instrs, positions, positionsFrom,
      isFlagStore, isCall, WZR, XReg, WReg]⟩

/-! ## Lemmas on the dispatcher -/

theorem Opcode.eq_of_class (op op2 : Opcode) (h1 : op.isMemory = true)
    (h2 : op2.isMemory = true) (hw : op2.isWrite = op.isWrite)
    (hx : op2.isExclusive = op.isExclusive) (hb : op2.bit_size = op.bit_size) : op2 = op := by
  cases op <;> cases op2 <;> first | rfl | (exfalso; revert h1 h2 hw hx hb; decide)

theorem EmitIR_fallback (abi : Abi) (fa : Nat) (b : Binding) (acctype : AccType)
    (op : Opcode) (hop : op.isMemory = true) :
    ∃ fn, routineFor op.isWrite op.isExclusive op.bit_size = some fn
        ∧ fn.isWrite = op.isWrite ∧ fn.isExclusive = op.isExclusive
        ∧ fn.bit_size = op.bit_size
        ∧ EmitIR abi ⟨false, fa⟩ b acctype op
            = fallbackEmitterFor op.isWrite op.isExclusive abi acctype fn
        ∧ callsOf (instrs (EmitIR abi ⟨false, fa⟩ b acctype op)) = [fn] := by
  cases op <;> simp [Opcode.isMemory] at hop <;> cases h : IsOrdered acctype <;>
      simp [EmitIR, routineFor, Opcode.isWrite, Opcode.isExclusive, Opcode.bit_size,
        LinkTarget.isWrite, LinkTarget.isExclusive, LinkTarget.bit_size, fallbackEmitterFor,
        EmitReadMemory, EmitExclusiveReadMemory, EmitWriteMemory, EmitExclusiveWriteMemory,
        instrs, callsOf, h]

/-! ## Lemmas on the inline sequences -/

theorem loadLE_lt (mem : Nat → Nat) (n : Nat) : ∀ a, loadLE mem a n < 256 ^ n := by
  induction n with
  | zero => intro a; simp [loadLE]
  | succ n ih =>
    intro a
    have h1 := ih (a + 1)
    have h2 : mem (a % 2 ^ 64) % 256 < 256 := Nat.mod_lt _ (by norm_num)
    show mem (a % 2 ^ 64) % 256 + 256 * loadLE mem (a + 1) n < 256 ^ (n + 1)
    rw [Nat.pow_succ]
    omega

theorem storeLE_frame (n : Nat) : ∀ (mem : Nat → Nat) (a v x : Nat),
    (∀ k, k < n → x ≠ (a + k) % 2 ^ 64) → storeLE mem a v n x = mem x := by
  induction n with
  | zero => intro mem a v x _; rfl
  | succ n ih =>
    intro mem a v x hx
    simp only [storeLE]
    rw [ih]
    · have h0 := hx 0 (Nat.succ_pos n)
      simp only [Nat.add_zero] at h0
      exact if_neg h0
    · intro k hk
      have := hx (k + 1) (Nat.succ_lt_succ hk)
      rwa [Nat.add_assoc, Nat.add_comm 1 k]

theorem storeLE_mod (n : Nat) : ∀ (mem : Nat → Nat) (a v : Nat),
    storeLE mem a (v % 256 ^ n) n = storeLE mem a v n := by
  induction n with
  | zero => intro mem a v; rfl
  | succ n ih =>
    intro mem a v
    simp only [storeLE]
    have h1 : v % 256 ^ (n + 1) % 256 = v % 256 := by
      rw [pow_succ]; exact Nat.mod_mul_left_mod v (256 ^ n) 256
    have h2 : v % 256 ^ (n + 1) / 256 = (v / 256) % 256 ^ n := by
      rw [pow_succ, Nat.mul_comm, Nat.mod_mul_right_div_self]
    rw [h1, h2, ih]

theorem inline_regAddr (abi : Abi) (conf : EmitConfig) (b : Binding) (m : Machine)
    (hs31 : abi.Xscratch0 ≠ 31) (ha : b.Waddr ≠ abi.Xscratch0) (ha31 : b.Waddr ≠ 31) :
    (m.write (XReg abi.Xscratch0) conf.fastmem_addr).regAddr (XReg abi.Xscratch0)
      (WReg b.Waddr) IndexExt.UXTW = fastmemAddr conf b m := by
  simp [Machine.regAddr, Machine.readSp, Machine.read, Machine.write, XReg, WReg, hs31, ha,
    ha31, IndexExt.apply, fastmemAddr]
  have : m.regs b.Waddr % 18446744073709551616 % 4294967296 = m.regs b.Waddr % 4294967296 :=
    Nat.mod_mod_of_dvd _ (by norm_num)
  rw [this]

theorem exec_inline_read (abi : Abi) (conf : EmitConfig) (b : Binding) (acctype : AccType)
    (ext : LinkTarget → Machine → Machine) (w : Nat) (h : ValidBitSize w) (m : Machine)
    (hs31 : abi.Xscratch0 ≠ 31) (ha : b.Waddr ≠ abi.Xscratch0) (ha31 : b.Waddr ≠ 31) :
    exec ext (EmitInlineReadMemory abi conf b acctype w h) m
      = (m.write (XReg abi.Xscratch0) conf.fastmem_addr).load ⟨max w 32, b.to_⟩
          (fastmemAddr conf b m) (w / 8) := by
  have hA := inline_regAddr abi conf b m hs31 ha ha31
  rcases h with rfl | rfl | rfl | rfl <;> cases ho : IsOrdered acctype <;>
    simp [exec, EmitInlineReadMemory, instrs, run, step, ho, hA]

theorem exec_inline_write (abi : Abi) (conf : EmitConfig) (b : Binding) (acctype : AccType)
    (ext : LinkTarget → Machine → Machine) (w : Nat) (h : ValidBitSize w) (m : Machine)
    (hs31 : abi.Xscratch0 ≠ 31) (ha : b.Waddr ≠ abi.Xscratch0) (ha31 : b.Waddr ≠ 31) :
    exec ext (EmitInlineWriteMemory abi conf b acctype w h) m
      = (m.write (XReg abi.Xscratch0) conf.fastmem_addr).store ⟨max w 32, b.value⟩
          (fastmemAddr conf b m) (w / 8) := by
  have hA := inline_regAddr abi conf b m hs31 ha ha31
  rcases h with rfl | rfl | rfl | rfl <;> cases ho : IsOrdered acctype <;>
    simp [exec, EmitInlineWriteMemory, instrs, run, step, ho, hA]

theorem fastmemAddr_mod (conf : EmitConfig) (b : Binding) (m : Machine) :
    fastmemAddr conf b m % 2 ^ 64 = fastmemAddr conf b m := by
  simp [fastmemAddr]

theorem step_add_fastmem (abi : Abi) (conf : EmitConfig) (b : Binding) (m : Machine)
    (ext : LinkTarget → Machine → Machine)
    (hs31 : abi.Xscratch0 ≠ 31) (ha : b.Waddr ≠ abi.Xscratch0) (ha31 : b.Waddr ≠ 31) :
    step ext (Instr.ADD (XReg abi.Xscratch0) (XReg abi.Xscratch0) (WReg b.Waddr) IndexExt.UXTW)
      (m.write (XReg abi.Xscratch0) conf.fastmem_addr)
      = m.write (XReg abi.Xscratch0) (fastmemAddr conf b m) := by
  have h1 : m.regs b.Waddr % 18446744073709551616 % 4294967296
      = m.regs b.Waddr % 4294967296 := Nat.mod_mod_of_dvd _ (by norm_num)
  simp only [step, Machine.writeSp, Machine.write, Machine.readSp, Machine.read, XReg, WReg,
    IndexExt.apply, fastmemAddr]
  congr 1
  funext i
  by_cases hi : i = abi.Xscratch0
  · subst hi
    simp [hs31, ha, ha31, h1]
  · simp [hi]

theorem readSp_write_scratch (abi : Abi) (conf : EmitConfig) (b : Binding) (m : Machine)
    (hs31 : abi.Xscratch0 ≠ 31) :
    (m.write (XReg abi.Xscratch0) (fastmemAddr conf b m)).readSp (XReg abi.Xscratch0)
      = fastmemAddr conf b m := by
  have := fastmemAddr_mod conf b m
  simp only [Machine.readSp, Machine.write, XReg]
  simp [hs31]
  simpa using this

theorem step_MOV (ext : LinkTarget → Machine → Machine) (rd : Reg) (imm : Nat) (m : Machine) :
    step ext (Instr.MOV rd imm) m = m.write rd imm := rfl

theorem step_DMB (ext : LinkTarget → Machine → Machine) (op : BarrierOp) (m : Machine) :
    step ext (Instr.DMB op) m = m := rfl

theorem step_LDXRB (ext : LinkTarget → Machine → Machine) (rt xn : Reg) (m : Machine) :
    step ext (Instr.LDXRB rt xn) m = m.loadExcl rt (m.readSp xn) 1 := rfl

theorem step_LDXRH (ext : LinkTarget → Machine → Machine) (rt xn : Reg) (m : Machine) :
    step ext (Instr.LDXRH rt xn) m = m.loadExcl rt (m.readSp xn) 2 := rfl

theorem step_LDXR (ext : LinkTarget → Machine → Machine) (rt xn : Reg) (m : Machine) :
    step ext (Instr.LDXR rt xn) m = m.loadExcl rt (m.readSp xn) (rt.bits / 8) := rfl

theorem step_STXRB (ext : LinkTarget → Machine → Machine) (ws rt xn : Reg) (m : Machine) :
    step ext (Instr.STXRB ws rt xn) m = m.storeExcl ws rt (m.readSp xn) 1 := rfl

theorem step_STXRH (ext : LinkTarget → Machine → Machine) (ws rt xn : Reg) (m : Machine) :
    step ext (Instr.STXRH ws rt xn) m = m.storeExcl ws rt (m.readSp xn) 2 := rfl

theorem step_STXR (ext : LinkTarget → Machine → Machine) (ws rt xn : Reg) (m : Machine) :
    step ext (Instr.STXR ws rt xn) m = m.storeExcl ws rt (m.readSp xn) (rt.bits / 8) := rfl

theorem exec_inline_excl_read (abi : Abi) (conf : EmitConfig) (b : Binding)
    (acctype : AccType) (ext : LinkTarget → Machine → Machine) (w : Nat)
    (h : ValidBitSize w) (m : Machine)
    (hs31 : abi.Xscratch0 ≠ 31) (ha : b.Waddr ≠ abi.Xscratch0) (ha31 : b.Waddr ≠ 31) :
    exec ext (EmitInlineExclusiveReadMemory abi conf b acctype w h) m
      = (m.write (XReg abi.Xscratch0) (fastmemAddr conf b m)).loadExcl ⟨max w 32, b.to_⟩
          (fastmemAddr conf b m) (w / 8) := by
  have hA := step_add_fastmem abi conf b m ext hs31 ha ha31
  have hB := readSp_write_scratch abi conf b m hs31
  rcases h with rfl | rfl | rfl | rfl <;> cases ho : IsOrdered acctype <;>
    simp [exec, EmitInlineExclusiveReadMemory, instrs, run, ho, hA, hB, step_MOV, step_DMB,
      step_LDXRB, step_LDXRH, step_LDXR]

theorem exec_inline_excl_write (abi : Abi) (conf : EmitConfig) (b : Binding)
    (acctype : AccType) (ext : LinkTarget → Machine → Machine) (w : Nat)
    (h : ValidBitSize w) (m : Machine)
    (hs31 : abi.Xscratch0 ≠ 31) (ha : b.Waddr ≠ abi.Xscratch0) (ha31 : b.Waddr ≠ 31) :
    exec ext (EmitInlineExclusiveWriteMemory abi conf b acctype w h) m
      = (m.write (XReg abi.Xscratch0) (fastmemAddr conf b m)).storeExcl (WReg b.Wresult)
          ⟨max w 32, b.value⟩ (fastmemAddr conf b m) (w / 8) := by
  have hA := step_add_fastmem abi conf b m ext hs31 ha ha31
  have hB := readSp_write_scratch abi conf b m hs31
  rcases h with rfl | rfl | rfl | rfl <;> cases ho : IsOrdered acctype <;>
    simp [exec, EmitInlineExclusiveWriteMemory, instrs, run, ho, hA, hB, step_MOV, step_DMB,
      step_STXRB, step_STXRH, step_STXR]

theorem read_value_after_scratch (abi : Abi) (b : Binding) (m : Machine) (v bits : Nat)
    (hv : b.value ≠ abi.Xscratch0) (hv31 : b.value ≠ 31) :
    (m.write (XReg abi.Xscratch0) v).read ⟨bits, b.value⟩ = m.regs b.value % 2 ^ bits := by
  simp [Machine.read, Machine.write, XReg, hv, hv31]

theorem storeLE_low (mem : Nat → Nat) (a r w : Nat) (h : ValidBitSize w) :
    storeLE mem a (r % 2 ^ max w 32) (w / 8) = storeLE mem a (r % 2 ^ w) (w / 8) := by
  rw [← storeLE_mod (w / 8) mem a (r % 2 ^ max w 32), ← storeLE_mod (w / 8) mem a (r % 2 ^ w)]
  rcases h with rfl | rfl | rfl | rfl <;> norm_num

theorem load_regs_to (m : Machine) (bits i a n : Nat) (hi : i ≠ 31) :
    (m.load ⟨bits, i⟩ a n).regs i = loadLE m.mem a n % 2 ^ bits := by
  simp [Machine.load, Machine.write, hi]

theorem loadLE_width (mem : Nat → Nat) (a w : Nat) (h : ValidBitSize w) :
    loadLE mem a (w / 8) < 2 ^ w
      ∧ loadLE mem a (w / 8) % 2 ^ max w 32 = loadLE mem a (w / 8) := by
  have hlt := loadLE_lt mem (w / 8) a
  rcases h with rfl | rfl | rfl | rfl <;> norm_num at hlt ⊢ <;> omega

theorem inline_syntax (abi : Abi) (conf : EmitConfig) (b : Binding) (acctype : AccType)
    (w : Nat) (h : ValidBitSize w) :
    (∃ a, (instrs (EmitInlineReadMemory abi conf b acctype w h)).filter isGuestAccess = [a]
        ∧ accessBits a = w ∧ dataReg a = some ⟨max w 32, b.to_⟩
        ∧ indexOperand a = some (WReg b.Waddr, IndexExt.UXTW))
    ∧ (∃ a, (instrs (EmitInlineExclusiveReadMemory abi conf b acctype w h)).filter
          isGuestAccess = [a]
        ∧ accessBits a = w ∧ dataReg a = some ⟨max w 32, b.to_⟩
        ∧ (instrs (EmitInlineExclusiveReadMemory abi conf b acctype w h)).filterMap
            indexOperand = [(WReg b.Waddr, IndexExt.UXTW)])
    ∧ (∃ a, (instrs (EmitInlineWriteMemory abi conf b acctype w h)).filter isGuestAccess = [a]
        ∧ accessBits a = w ∧ dataReg a = some ⟨max w 32, b.value⟩
        ∧ indexOperand a = some (WReg b.Waddr, IndexExt.UXTW))
    ∧ (∃ a, (instrs (EmitInlineExclusiveWriteMemory abi conf b acctype w h)).filter
          isGuestAccess = [a]
        ∧ accessBits a = w ∧ dataReg a = some ⟨max w 32, b.value⟩
        ∧ (instrs (EmitInlineExclusiveWriteMemory abi conf b acctype w h)).filterMap
            indexOperand = [(WReg b.Waddr, IndexExt.UXTW)]) := by
  rcases h with rfl | rfl | rfl | rfl <;> cases ho : IsOrdered acctype <;>
    simp [EmitInlineReadMemory, EmitInlineExclusiveReadMemory, EmitInlineWriteMemory,
      EmitInlineExclusiveWriteMemory, instrs, ho, isGuestAccess, accessBits, dataReg,
      indexOperand]

theorem inline_requests (abi : Abi) (conf : EmitConfig) (b : Binding) (acctype : AccType)
    (w : Nat) (h : ValidBitSize w) :
    (Emit.ReadW 1 ∈ EmitInlineReadMemory abi conf b acctype w h
      ∧ Emit.WriteReg (max w 32) ∈ EmitInlineReadMemory abi conf b acctype w h)
    ∧ (Emit.ReadW 1 ∈ EmitInlineExclusiveReadMemory abi conf b acctype w h
      ∧ Emit.WriteReg (max w 32) ∈ EmitInlineExclusiveReadMemory abi conf b acctype w h)
    ∧ (Emit.ReadW 1 ∈ EmitInlineWriteMemory abi conf b acctype w h
      ∧ Emit.ReadReg (max w 32) 2 ∈ EmitInlineWriteMemory abi conf b acctype w h)
    ∧ (Emit.ReadW 1 ∈ EmitInlineExclusiveWriteMemory abi conf b acctype w h
      ∧ Emit.ReadReg (max w 32) 2 ∈ EmitInlineExclusiveWriteMemory abi conf b acctype w h) := by
  simp [EmitInlineReadMemory, EmitInlineExclusiveReadMemory, EmitInlineWriteMemory,
    EmitInlineExclusiveWriteMemory]

theorem storeLE_zero_four_idem (mem : Nat → Nat) (a : Nat) :
    storeLE (storeLE mem a 0 4) a 0 4 = storeLE mem a 0 4 := by
  funext x
  simp only [storeLE]
  split_ifs <;> simp

/-! ## Properties of the specification -/

/-- C2. Monitor lifecycle on the fallback path (fastmem disabled). For any exclusive-load
opcode `opL` and exclusive-store opcode `opS` (any widths, access types and bindings) and any
initial state: the store sequence executed right after the load sequence performs exactly one
relocatable call, to an exclusive-write routine of the store's width; the store sequence
executed from a state whose flag is 0 performs no call; and the store sequence executed right
after the `A32ClearExclusive` sequence performs no call. The out-of-line routine called by the
load is assumed to leave `Xstate` and the flag byte alone (`PreservesFlag`), and the scratch
register is assumed to be neither register 31 nor `Xstate`. -/
theorem C2_monitor_lifecycle (abi : Abi) (ext : LinkTarget → Machine → Machine) (fa : Nat)
    (b1 b2 : Binding) (a1 a2 : AccType) (opL opS : Opcode) (m : Machine)
    (hL : opL.isWrite = false ∧ opL.isExclusive = true)
    (hS : opS.isWrite = true ∧ opS.isExclusive = true)
    (h31 : abi.Xscratch0 ≠ 31) (hs : abi.Xscratch0 ≠ abi.Xstate)
    (hext : PreservesFlag abi ext) :
    (∃ fn, callsOf (executed ext (EmitIR abi ⟨false, fa⟩ b2 a2 opS)
              (exec ext (EmitIR abi ⟨false, fa⟩ b1 a1 opL) m)) = [fn]
        ∧ fn.isWrite = true ∧ fn.isExclusive = true ∧ fn.bit_size = opS.bit_size)
    ∧ (flag abi m = 0 → callsOf (executed ext (EmitIR abi ⟨false, fa⟩ b2 a2 opS) m) = [])
    ∧ callsOf (executed ext (EmitIR abi ⟨false, fa⟩ b2 a2 opS)
        (exec ext (EmitIR abi ⟨false, fa⟩ b1 a1 Opcode.A32ClearExclusive) m)) = [] := by
  obtain ⟨fnL, hLe, -, -, -⟩ := EmitIR_exclusive_read abi fa b1 a1 opL hL
  obtain ⟨fnS, hSe, hw, hx, hb⟩ := EmitIR_exclusive_write abi fa b2 a2 opS hS
  simp only [executed, exec, hLe, hSe]
  refine ⟨⟨fnS, ?_, hw, hx, hb⟩, ?_, ?_⟩
  · apply calls_excl_write_armed _ _ _ _ _ _ h31
    rw [flag_excl_read abi ext a1 fnL m h31 hs hext]
    decide
  · intro hflag
    exact calls_excl_write_skip abi ext a2 fnS m hflag
  · apply calls_excl_write_skip
    exact flag_clear_exclusive abi m

/-- C2 at a concrete input: a 32-bit ordered exclusive load and store on the sample machine. -/
theorem C2_monitor_lifecycle_witness :
    ((Opcode.A32ExclusiveReadMemory32.isWrite = false
        ∧ Opcode.A32ExclusiveReadMemory32.isExclusive = true)
      ∧ (Opcode.A32ExclusiveWriteMemory32.isWrite = true
        ∧ Opcode.A32ExclusiveWriteMemory32.isExclusive = true)
      ∧ sampleAbi.Xscratch0 ≠ 31 ∧ sampleAbi.Xscratch0 ≠ sampleAbi.Xstate
      ∧ PreservesFlag sampleAbi sampleExt)
    ∧ ((∃ fn, callsOf (executed sampleExt (EmitIR sampleAbi ⟨false, 0⟩ sampleBinding
              AccType.ORDERED Opcode.A32ExclusiveWriteMemory32)
              (exec sampleExt (EmitIR sampleAbi ⟨false, 0⟩ sampleBinding AccType.ORDERED
                Opcode.A32ExclusiveReadMemory32) (sampleMachine 0))) = [fn]
        ∧ fn.isWrite = true ∧ fn.isExclusive = true
        ∧ fn.bit_size = Opcode.A32ExclusiveWriteMemory32.bit_size)
      ∧ (flag sampleAbi (sampleMachine 0) = 0 →
          callsOf (executed sampleExt (EmitIR sampleAbi ⟨false, 0⟩ sampleBinding
            AccType.ORDERED Opcode.A32ExclusiveWriteMemory32) (sampleMachine 0)) = [])
      ∧ callsOf (executed sampleExt (EmitIR sampleAbi ⟨false, 0⟩ sampleBinding
          AccType.ORDERED Opcode.A32ExclusiveWriteMemory32)
          (exec sampleExt (EmitIR sampleAbi ⟨false, 0⟩ sampleBinding AccType.ORDERED
            Opcode.A32ClearExclusive) (sampleMachine 0))) = []) :=
  ⟨⟨by decide, by decide, by decide, by decide, sampleExt_preservesFlag⟩,
    C2_monitor_lifecycle sampleAbi sampleExt 0 sampleBinding sampleBinding AccType.ORDERED
      AccType.ORDERED Opcode.A32ExclusiveReadMemory32 Opcode.A32ExclusiveWriteMemory32
      (sampleMachine 0) (by decide) (by decide) (by decide) (by decide)
      sampleExt_preservesFlag⟩

/-- C3. Barrier count and placement. For each of the sixteen read/write opcodes, both fastmem
settings, every binding and every access type: every barrier in the emitted instructions is
`DMB ISH`; when the access type is not ordered there is no barrier; when it is ordered there
is exactly one access (the load or store instruction with fastmem, the relocatable call
without) at some position `k`, a load has exactly one barrier, at `k + 1`, and a store has
exactly two, one at some position before `k` and one at `k + 1`. -/
theorem C3_barrier_count_and_placement (abi : Abi) (conf : EmitConfig) (b : Binding)
    (acctype : AccType) (op : Opcode) (hop : op.isMemory = true) :
    (∀ d ∈ barriersOf (instrs (EmitIR abi conf b acctype op)), d = BarrierOp.ISH)
    ∧ (IsOrdered acctype = false →
        positions isBarrier (instrs (EmitIR abi conf b acctype op)) = [])
    ∧ (IsOrdered acctype = true →
        ∃ k, positions (fun i => if conf.enable_fastmem then isGuestAccess i else isCall i)
              (instrs (EmitIR abi conf b acctype op)) = [k]
          ∧ (op.isWrite = false →
              positions isBarrier (instrs (EmitIR abi conf b acctype op)) = [k + 1])
          ∧ (op.isWrite = true →
              ∃ i, i < k ∧
                positions isBarrier (instrs (EmitIR abi conf b acctype op)) = [i, k + 1])) := by
  obtain ⟨fm, fa⟩ := conf
  cases op <;> simp [Opcode.isMemory] at hop <;> cases fm <;> cases h : IsOrdered acctype <;>
    simp [EmitIR, EmitInlineReadMemory, EmitInlineExclusiveReadMemory, EmitInlineWriteMemory,
      EmitInlineExclusiveWriteMemory, EmitReadMemory, EmitExclusiveReadMemory, EmitWriteMemory,
      EmitExclusiveWriteMemory, h, instrs, barriersOf, positions, positionsFrom, isBarrier,
      isGuestAccess, isCall, Opcode.isWrite]

/-- C3 at a concrete input: the ordered 64-bit exclusive store without fastmem. -/
theorem C3_barrier_count_and_placement_witness :
    Opcode.A32ExclusiveWriteMemory64.isMemory = true
    ∧ IsOrdered AccType.ORDEREDRW = true
    ∧ positions isCall (instrs (EmitIR sampleAbi ⟨false, 0⟩ sampleBinding AccType.ORDEREDRW
        Opcode.A32ExclusiveWriteMemory64)) = [4]
    ∧ positions isBarrier (instrs (EmitIR sampleAbi ⟨false, 0⟩ sampleBinding AccType.ORDEREDRW
        Opcode.A32ExclusiveWriteMemory64)) = [0, 5]
    ∧ ((∀ d ∈ barriersOf (instrs (EmitIR sampleAbi ⟨false, 0⟩ sampleBinding
          AccType.ORDEREDRW Opcode.A32ExclusiveWriteMemory64)), d = BarrierOp.ISH)
      ∧ (IsOrdered AccType.ORDEREDRW = false →
          positions isBarrier (instrs (EmitIR sampleAbi ⟨false, 0⟩ sampleBinding
            AccType.ORDEREDRW Opcode.A32ExclusiveWriteMemory64)) = [])
      ∧ (IsOrdered AccType.ORDEREDRW = true →
          ∃ k, positions
                (fun i => if (EmitConfig.mk false 0).enable_fastmem then isGuestAccess i
                  else isCall i)
                (instrs (EmitIR sampleAbi ⟨false, 0⟩ sampleBinding AccType.ORDEREDRW
                  Opcode.A32ExclusiveWriteMemory64)) = [k]
            ∧ (Opcode.A32ExclusiveWriteMemory64.isWrite = false →
                positions isBarrier (instrs (EmitIR sampleAbi ⟨false, 0⟩ sampleBinding
                  AccType.ORDEREDRW Opcode.A32ExclusiveWriteMemory64)) = [k + 1])
            ∧ (Opcode.A32ExclusiveWriteMemory64.isWrite = true →
                ∃ i, i < k ∧
                  positions isBarrier (instrs (EmitIR sampleAbi ⟨false, 0⟩ sampleBinding
                    AccType.ORDEREDRW Opcode.A32ExclusiveWriteMemory64)) = [i, k + 1]))) :=
  ⟨by decide, by decide, by decide, by decide,
    C3_barrier_count_and_placement sampleAbi ⟨false, 0⟩ sampleBinding AccType.ORDEREDRW
      Opcode.A32ExclusiveWriteMemory64 (by decide)⟩

/-- C5. The fallback exclusive store as a two-state machine on the flag byte. For every
exclusive-store opcode, access type, binding and initial state (so every flag byte), with
fastmem disabled: the executed instructions contain a relocatable call, exactly one and to an
exclusive-write routine of the opcode's width, if and only if the flag is nonzero; the flag is
0 afterwards in both cases; in the emitted instructions the single store to the flag precedes
the single relocatable call; and a second exclusive store executed directly afterwards
performs no call. The out-of-line routine is assumed to leave `Xstate` and the flag byte alone
(`PreservesFlag`), and the scratch register to be neither register 31 nor `Xstate`. -/
theorem C5_exclusive_store_state_machine (abi : Abi) (ext : LinkTarget → Machine → Machine)
    (fa : Nat) (b b2 : Binding) (acctype a2 : AccType) (op op2 : Opcode) (m : Machine)
    (hop : op.isWrite = true ∧ op.isExclusive = true)
    (hop2 : op2.isWrite = true ∧ op2.isExclusive = true)
    (h31 : abi.Xscratch0 ≠ 31) (hs : abi.Xscratch0 ≠ abi.Xstate)
    (hext : PreservesFlag abi ext) :
    (∃ fn, fn.isWrite = true ∧ fn.isExclusive = true ∧ fn.bit_size = op.bit_size
        ∧ callsOf (executed ext (EmitIR abi ⟨false, fa⟩ b acctype op) m)
            = if flag abi m = 0 then [] else [fn])
    ∧ flag abi (exec ext (EmitIR abi ⟨false, fa⟩ b acctype op) m) = 0
    ∧ (∃ i j,
        positions (isFlagStore abi) (instrs (EmitIR abi ⟨false, fa⟩ b acctype op)) = [i]
        ∧ positions isCall (instrs (EmitIR abi ⟨false, fa⟩ b acctype op)) = [j] ∧ i < j)
    ∧ callsOf (executed ext (EmitIR abi ⟨false, fa⟩ b2 a2 op2)
        (exec ext (EmitIR abi ⟨false, fa⟩ b acctype op) m)) = [] := by
  obtain ⟨fn, he, hw, hx, hb⟩ := EmitIR_exclusive_write abi fa b acctype op hop
  obtain ⟨fn2, he2, -, -, -⟩ := EmitIR_exclusive_write abi fa b2 a2 op2 hop2
  simp only [executed, exec, he, he2]
  have hz := flag_excl_write abi ext acctype fn m h31 hs hext
  refine ⟨⟨fn, hw, hx, hb, ?_⟩, hz, positions_excl_write abi acctype fn, ?_⟩
  · by_cases hflag : flag abi m = 0
    · rw [if_pos hflag]; exact calls_excl_write_skip abi ext acctype fn m hflag
    · rw [if_neg hflag]; exact calls_excl_write_armed abi ext acctype fn m hflag h31
  · exact calls_excl_write_skip abi ext a2 fn2 _ hz

/-- C5 at a concrete input: an armed sample machine (flag byte 7), 16-bit stores. -/
theorem C5_exclusive_store_state_machine_witness :
    ((Opcode.A32ExclusiveWriteMemory16.isWrite = true
        ∧ Opcode.A32ExclusiveWriteMemory16.isExclusive = true)
      ∧ sampleAbi.Xscratch0 ≠ 31 ∧ sampleAbi.Xscratch0 ≠ sampleAbi.Xstate
      ∧ PreservesFlag sampleAbi sampleExt
      ∧ flag sampleAbi (sampleMachine 7) = 7)
    ∧ ((∃ fn, fn.isWrite = true ∧ fn.isExclusive = true
          ∧ fn.bit_size = Opcode.A32ExclusiveWriteMemory16.bit_size
          ∧ callsOf (executed sampleExt (EmitIR sampleAbi ⟨false, 0⟩ sampleBinding
              AccType.ORDERED Opcode.A32ExclusiveWriteMemory16) (sampleMachine 7))
              = if flag sampleAbi (sampleMachine 7) = 0 then [] else [fn])
      ∧ flag sampleAbi (exec sampleExt (EmitIR sampleAbi ⟨false, 0⟩ sampleBinding
          AccType.ORDERED Opcode.A32ExclusiveWriteMemory16) (sampleMachine 7)) = 0
      ∧ (∃ i j, positions (isFlagStore sampleAbi) (instrs (EmitIR sampleAbi ⟨false, 0⟩
            sampleBinding AccType.ORDERED Opcode.A32ExclusiveWriteMemory16)) = [i]
          ∧ positions isCall (instrs (EmitIR sampleAbi ⟨false, 0⟩ sampleBinding
            AccType.ORDERED Opcode.A32ExclusiveWriteMemory16)) = [j] ∧ i < j)
      ∧ callsOf (executed sampleExt (EmitIR sampleAbi ⟨false, 0⟩ sampleBinding
          AccType.ORDERED Opcode.A32ExclusiveWriteMemory16)
          (exec sampleExt (EmitIR sampleAbi ⟨false, 0⟩ sampleBinding AccType.ORDERED
            Opcode.A32ExclusiveWriteMemory16) (sampleMachine 7))) = []) :=
  ⟨⟨by decide, by decide, by decide, sampleExt_preservesFlag, by decide⟩,
    C5_exclusive_store_state_machine sampleAbi sampleExt 0 sampleBinding sampleBinding
      AccType.ORDERED AccType.ORDERED Opcode.A32ExclusiveWriteMemory16
      Opcode.A32ExclusiveWriteMemory16 (sampleMachine 7) (by decide) (by decide) (by decide)
      (by decide) sampleExt_preservesFlag⟩

/-- C7. Dispatcher routing. For each of the sixteen read/write opcodes: with fastmem disabled
`EmitIR` is the fallback emitter of the opcode's direction and exclusivity, and its single
relocatable call targets the routine the routing table gives for the opcode, whose direction,
exclusivity and width are the opcode's; two read/write opcodes with the same call target are
equal; with fastmem enabled `EmitIR` is the inline emitter of the opcode's direction and
exclusivity at the opcode's width; and `EmitIR` is one or the other according to
`enable_fastmem` alone (the fallback emission does not depend on the fastmem base). -/
theorem C7_dispatcher_routing (abi : Abi) (conf : EmitConfig) (b : Binding)
    (acctype : AccType) (op : Opcode) (hop : op.isMemory = true) :
    (∃ fn, routineFor op.isWrite op.isExclusive op.bit_size = some fn
        ∧ fn.isWrite = op.isWrite ∧ fn.isExclusive = op.isExclusive
        ∧ fn.bit_size = op.bit_size
        ∧ EmitIR abi ⟨false, conf.fastmem_addr⟩ b acctype op
            = fallbackEmitterFor op.isWrite op.isExclusive abi acctype fn
        ∧ callsOf (instrs (EmitIR abi ⟨false, conf.fastmem_addr⟩ b acctype op)) = [fn])
    ∧ (∀ op2 : Opcode, op2.isMemory = true →
        callsOf (instrs (EmitIR abi ⟨false, conf.fastmem_addr⟩ b acctype op2))
          = callsOf (instrs (EmitIR abi ⟨false, conf.fastmem_addr⟩ b acctype op)) → op2 = op)
    ∧ (∃ h : ValidBitSize op.bit_size,
        EmitIR abi ⟨true, conf.fastmem_addr⟩ b acctype op
          = inlineEmitterFor op.isWrite op.isExclusive abi ⟨true, conf.fastmem_addr⟩ b acctype
              op.bit_size h)
    ∧ EmitIR abi conf b acctype op
        = (if conf.enable_fastmem then EmitIR abi ⟨true, conf.fastmem_addr⟩ b acctype op
           else EmitIR abi ⟨false, 0⟩ b acctype op) := by
  obtain ⟨fm, fa⟩ := conf
  refine ⟨EmitIR_fallback abi fa b acctype op hop, ?_, ?_, ?_⟩
  · intro op2 hop2 heq
    obtain ⟨fn, -, hw, hx, hb, -, hc⟩ := EmitIR_fallback abi fa b acctype op hop
    obtain ⟨fn2, -, hw2, hx2, hb2, -, hc2⟩ := EmitIR_fallback abi fa b acctype op2 hop2
    simp only at heq
    rw [hc, hc2] at heq
    have hfn : fn2 = fn := by simpa using heq
    subst hfn
    exact Opcode.eq_of_class op op2 hop hop2 (hw2.symm.trans hw) (hx2.symm.trans hx)
      (hb2.symm.trans hb)
  · cases op <;> simp [Opcode.isMemory] at hop <;>
      exact ⟨by decide, rfl⟩
  · cases fm <;> cases op <;> simp [EmitIR]

/-- C7 at a concrete input: the 8-bit plain write. -/
theorem C7_dispatcher_routing_witness :
    Opcode.A32WriteMemory8.isMemory = true
    ∧ callsOf (instrs (EmitIR sampleAbi ⟨false, 4096⟩ sampleBinding AccType.ORDERED
        Opcode.A32WriteMemory8)) = [LinkTarget.WriteMemory8]
    ∧ ((∃ fn, routineFor Opcode.A32WriteMemory8.isWrite Opcode.A32WriteMemory8.isExclusive
            Opcode.A32WriteMemory8.bit_size = some fn
          ∧ fn.isWrite = Opcode.A32WriteMemory8.isWrite
          ∧ fn.isExclusive = Opcode.A32WriteMemory8.isExclusive
          ∧ fn.bit_size = Opcode.A32WriteMemory8.bit_size
          ∧ EmitIR sampleAbi ⟨false, (EmitConfig.mk true 4096).fastmem_addr⟩ sampleBinding
              AccType.ORDERED Opcode.A32WriteMemory8
              = fallbackEmitterFor Opcode.A32WriteMemory8.isWrite
                  Opcode.A32WriteMemory8.isExclusive sampleAbi AccType.ORDERED fn
          ∧ callsOf (instrs (EmitIR sampleAbi ⟨false, (EmitConfig.mk true 4096).fastmem_addr⟩
              sampleBinding AccType.ORDERED Opcode.A32WriteMemory8)) = [fn])
      ∧ (∀ op2 : Opcode, op2.isMemory = true →
          callsOf (instrs (EmitIR sampleAbi ⟨false, (EmitConfig.mk true 4096).fastmem_addr⟩
              sampleBinding AccType.ORDERED op2))
            = callsOf (instrs (EmitIR sampleAbi
                ⟨false, (EmitConfig.mk true 4096).fastmem_addr⟩ sampleBinding AccType.ORDERED
                Opcode.A32WriteMemory8)) → op2 = Opcode.A32WriteMemory8)
      ∧ (∃ h : ValidBitSize Opcode.A32WriteMemory8.bit_size,
          EmitIR sampleAbi ⟨true, (EmitConfig.mk true 4096).fastmem_addr⟩ sampleBinding
              AccType.ORDERED Opcode.A32WriteMemory8
            = inlineEmitterFor Opcode.A32WriteMemory8.isWrite
                Opcode.A32WriteMemory8.isExclusive sampleAbi
                ⟨true, (EmitConfig.mk true 4096).fastmem_addr⟩ sampleBinding AccType.ORDERED
                Opcode.A32WriteMemory8.bit_size h)
      ∧ EmitIR sampleAbi ⟨true, 4096⟩ sampleBinding AccType.ORDERED Opcode.A32WriteMemory8
          = (if (EmitConfig.mk true 4096).enable_fastmem then
              EmitIR sampleAbi ⟨true, (EmitConfig.mk true 4096).fastmem_addr⟩ sampleBinding
                AccType.ORDERED Opcode.A32WriteMemory8
             else EmitIR sampleAbi ⟨false, 0⟩ sampleBinding AccType.ORDERED
                Opcode.A32WriteMemory8)) :=
  ⟨by decide, by decide,
    C7_dispatcher_routing sampleAbi ⟨true, 4096⟩ sampleBinding AccType.ORDERED
      Opcode.A32WriteMemory8 (by decide)⟩

/-- C8. Ordered classification. `IsOrdered` is true exactly for `ORDERED`, `ORDEREDRW` and
`LIMITEDORDERED`; and for every opcode, configuration and binding, two access types with the
same `IsOrdered` value give the same emission (so the three ordered types give one emission,
and any two types that are not ordered give one emission). -/
theorem C8_ordered_classification (abi : Abi) (conf : EmitConfig) (b : Binding)
    (a1 a2 : AccType) (op : Opcode) :
    (IsOrdered a1 = true
      ↔ a1 = AccType.ORDERED ∨ a1 = AccType.ORDEREDRW ∨ a1 = AccType.LIMITEDORDERED)
    ∧ (IsOrdered a1 = IsOrdered a2 → EmitIR abi conf b a1 op = EmitIR abi conf b a2 op) := by
  refine ⟨by cases a1 <;> simp [IsOrdered], ?_⟩
  intro h
  cases op <;>
    simp [EmitIR, EmitInlineReadMemory, EmitInlineExclusiveReadMemory, EmitInlineWriteMemory,
      EmitInlineExclusiveWriteMemory, EmitReadMemory, EmitExclusiveReadMemory, EmitWriteMemory,
      EmitExclusiveWriteMemory, h]

/-- C8 at a concrete input: `ORDERED` and `LIMITEDORDERED` on the 32-bit inline exclusive
store. -/
theorem C8_ordered_classification_witness :
    IsOrdered AccType.ORDERED = IsOrdered AccType.LIMITEDORDERED
    ∧ ((IsOrdered AccType.ORDERED = true
        ↔ AccType.ORDERED = AccType.ORDERED ∨ AccType.ORDERED = AccType.ORDEREDRW
          ∨ AccType.ORDERED = AccType.LIMITEDORDERED)
      ∧ (IsOrdered AccType.ORDERED = IsOrdered AccType.LIMITEDORDERED →
          EmitIR sampleAbi ⟨true, 4096⟩ sampleBinding AccType.ORDERED
              Opcode.A32ExclusiveWriteMemory32
            = EmitIR sampleAbi ⟨true, 4096⟩ sampleBinding AccType.LIMITEDORDERED
              Opcode.A32ExclusiveWriteMemory32)) :=
  ⟨by decide,
    C8_ordered_classification sampleAbi ⟨true, 4096⟩ sampleBinding AccType.ORDERED
      AccType.LIMITEDORDERED Opcode.A32ExclusiveWriteMemory32⟩

/-- C1, the code at the failing input. Fastmem disabled, the exclusive flag 0 and X0 0 (X0 is
the register in which the routine would have returned the status of the store): for each
width and every access type, the sequence emitted for the exclusive store executes no
relocatable call, so the store is skipped, and X0 is still 0 afterwards, the value that
reports a successful store. -/
theorem C1_skipped_store_leaves_result_zero (ext : LinkTarget → Machine → Machine)
    (acctype : AccType) :
    (flag sampleAbi (sampleMachine 0) = 0 ∧ (sampleMachine 0).regs 0 = 0)
    ∧ (callsOf (executed ext (EmitIR sampleAbi ⟨false, 0⟩ sampleBinding acctype
          Opcode.A32ExclusiveWriteMemory8) (sampleMachine 0)) = []
      ∧ (exec ext (EmitIR sampleAbi ⟨false, 0⟩ sampleBinding acctype
          Opcode.A32ExclusiveWriteMemory8) (sampleMachine 0)).regs 0 = 0)
    ∧ (callsOf (executed ext (EmitIR sampleAbi ⟨false, 0⟩ sampleBinding acctype
          Opcode.A32ExclusiveWriteMemory16) (sampleMachine 0)) = []
      ∧ (exec ext (EmitIR sampleAbi ⟨false, 0⟩ sampleBinding acctype
          Opcode.A32ExclusiveWriteMemory16) (sampleMachine 0)).regs 0 = 0)
    ∧ (callsOf (executed ext (EmitIR sampleAbi ⟨false, 0⟩ sampleBinding acctype
          Opcode.A32ExclusiveWriteMemory32) (sampleMachine 0)) = []
      ∧ (exec ext (EmitIR sampleAbi ⟨false, 0⟩ sampleBinding acctype
          Opcode.A32ExclusiveWriteMemory32) (sampleMachine 0)).regs 0 = 0)
    ∧ (callsOf (executed ext (EmitIR sampleAbi ⟨false, 0⟩ sampleBinding acctype
          Opcode.A32ExclusiveWriteMemory64) (sampleMachine 0)) = []
      ∧ (exec ext (EmitIR sampleAbi ⟨false, 0⟩ sampleBinding acctype
          Opcode.A32ExclusiveWriteMemory64) (sampleMachine 0)).regs 0 = 0) := by
  have hflag : flag sampleAbi (sampleMachine 0) = 0 := by decide
  have key : ∀ fn, callsOf (executed ext (EmitExclusiveWriteMemory sampleAbi acctype fn)
        (sampleMachine 0)) = []
      ∧ (exec ext (EmitExclusiveWriteMemory sampleAbi acctype fn) (sampleMachine 0)).regs 0
        = 0 := by
    intro fn
    refine ⟨calls_excl_write_skip sampleAbi ext acctype fn _ hflag, ?_⟩
    show (run ext none _ _).regs 0 = 0
    rw [run_excl_write_skip sampleAbi ext acctype fn _ hflag]
    rfl
  exact ⟨⟨hflag, rfl⟩, key _, key _, key _, key _⟩

/-- C9 as stated fails with fastmem enabled: the emitted sequence is `CLREX` alone, and on the
sample machine with the flag 1 the flag is not 0 after it. -/
theorem C9_fastmem_clear_leaves_flag_set :
    flag sampleAbi (sampleMachine 1) = 1
    ∧ instrs (EmitIR sampleAbi ⟨true, 0⟩ sampleBinding AccType.ORDERED
        Opcode.A32ClearExclusive) = [Instr.CLREX]
    ∧ ¬ (flag sampleAbi (exec sampleExt (EmitIR sampleAbi ⟨true, 0⟩ sampleBinding
        AccType.ORDERED Opcode.A32ClearExclusive) (sampleMachine 1)) = 0) := by
  decide

/-- C9, amended. `A32ClearExclusive` is idempotent and never arms: for both fastmem settings
and every initial state, the state after two executions of the emitted sequence equals the
state after one, and after an execution the flag is 0 or has its prior value. With fastmem
disabled the flag is 0 after one execution. With fastmem enabled the flag byte keeps its
prior value and the host's exclusive monitor is cleared. -/
theorem C9_clear_exclusive_idempotent (abi : Abi) (ext : LinkTarget → Machine → Machine)
    (conf : EmitConfig) (fa : Nat) (b : Binding) (acctype : AccType) (m : Machine) :
    (flag abi (exec ext (EmitIR abi ⟨false, fa⟩ b acctype Opcode.A32ClearExclusive) m) = 0
      ∧ (flag abi (exec ext (EmitIR abi ⟨true, fa⟩ b acctype Opcode.A32ClearExclusive) m)
          = flag abi m
        ∧ (exec ext (EmitIR abi ⟨true, fa⟩ b acctype Opcode.A32ClearExclusive) m).monitor
          = none))
    ∧ exec ext (EmitIR abi conf b acctype Opcode.A32ClearExclusive)
          (exec ext (EmitIR abi conf b acctype Opcode.A32ClearExclusive) m)
        = exec ext (EmitIR abi conf b acctype Opcode.A32ClearExclusive) m
    ∧ (flag abi (exec ext (EmitIR abi conf b acctype Opcode.A32ClearExclusive) m) = 0
      ∨ flag abi (exec ext (EmitIR abi conf b acctype Opcode.A32ClearExclusive) m)
        = flag abi m) := by
  have hF : ∀ (x : Nat) (m1 : Machine),
      exec ext (EmitIR abi ⟨false, x⟩ b acctype Opcode.A32ClearExclusive) m1
        = m1.store WZR (flagAddr abi m1) 4 := fun _ _ => rfl
  have hT : ∀ (x : Nat) (m1 : Machine),
      exec ext (EmitIR abi ⟨true, x⟩ b acctype Opcode.A32ClearExclusive) m1
        = { m1 with monitor := none } := fun _ _ => rfl
  have h0 : ∀ m1 : Machine, m1.read WZR = 0 := fun m1 => by simp [Machine.read, WZR]
  refine ⟨⟨?_, ?_, ?_⟩, ?_, ?_⟩
  · rw [hF]; exact flag_clear_exclusive abi m
  · rw [hT]; rfl
  · rw [hT]
  · obtain ⟨fm, x⟩ := conf
    cases fm
    · rw [hF, hF]
      have ha : flagAddr abi (m.store WZR (flagAddr abi m) 4) = flagAddr abi m := rfl
      rw [ha]
      simp only [Machine.store, h0, storeLE_zero_four_idem]
    · rw [hT, hT]
  · obtain ⟨fm, x⟩ := conf
    cases fm
    · left; rw [hF]; exact flag_clear_exclusive abi m
    · right; rw [hT]; rfl

/-- C10. Width correctness on the fastmem path. For every width `w` in {8, 16, 32, 64}, every
access type, binding and state, each of the four inline emitters requests the address as a
32-bit read and the load destination or store value at `max w 32` bits; emits exactly one
memory instruction, which accesses `w` bits, transfers the register of `max w 32` bits bound
to the destination or value, and is addressed by the 32-bit address register extended with
`UXTW` (as the index of the access, or through the `ADD` before an exclusive access).
Executed, a load leaves in the whole destination register the `w / 8` bytes at the fastmem
base plus the zero-extended address, a value below `2 ^ w`; a store writes the low `w` bits of
the value register to those `w / 8` bytes (an exclusive store when the monitor marks the
address, and nothing otherwise), leaves every other byte as it was, and a plain store leaves
every register but the scratch register as it was. The scratch register is assumed not to be
register 31, and the registers bound to address and value to be neither the scratch register
nor register 31, the destination not register 31. -/
theorem C10_fastmem_width_correctness (abi : Abi) (conf : EmitConfig) (b : Binding)
    (acctype : AccType) (ext : LinkTarget → Machine → Machine) (w : Nat)
    (h : ValidBitSize w) (m : Machine)
    (hs31 : abi.Xscratch0 ≠ 31) (ha : b.Waddr ≠ abi.Xscratch0) (ha31 : b.Waddr ≠ 31)
    (ht31 : b.to_ ≠ 31) (hv : b.value ≠ abi.Xscratch0) (hv31 : b.value ≠ 31) :
    ((Emit.ReadW 1 ∈ EmitInlineReadMemory abi conf b acctype w h
        ∧ Emit.WriteReg (max w 32) ∈ EmitInlineReadMemory abi conf b acctype w h)
      ∧ (Emit.ReadW 1 ∈ EmitInlineExclusiveReadMemory abi conf b acctype w h
        ∧ Emit.WriteReg (max w 32) ∈ EmitInlineExclusiveReadMemory abi conf b acctype w h)
      ∧ (Emit.ReadW 1 ∈ EmitInlineWriteMemory abi conf b acctype w h
        ∧ Emit.ReadReg (max w 32) 2 ∈ EmitInlineWriteMemory abi conf b acctype w h)
      ∧ (Emit.ReadW 1 ∈ EmitInlineExclusiveWriteMemory abi conf b acctype w h
        ∧ Emit.ReadReg (max w 32) 2 ∈ EmitInlineExclusiveWriteMemory abi conf b acctype w h))
    ∧ ((∃ a, (instrs (EmitInlineReadMemory abi conf b acctype w h)).filter isGuestAccess = [a]
        ∧ accessBits a = w ∧ dataReg a = some ⟨max w 32, b.to_⟩
        ∧ indexOperand a = some (WReg b.Waddr, IndexExt.UXTW))
      ∧ (∃ a, (instrs (EmitInlineExclusiveReadMemory abi conf b acctype w h)).filter
            isGuestAccess = [a]
          ∧ accessBits a = w ∧ dataReg a = some ⟨max w 32, b.to_⟩
          ∧ (instrs (EmitInlineExclusiveReadMemory abi conf b acctype w h)).filterMap
              indexOperand = [(WReg b.Waddr, IndexExt.UXTW)])
      ∧ (∃ a, (instrs (EmitInlineWriteMemory abi conf b acctype w h)).filter
            isGuestAccess = [a]
          ∧ accessBits a = w ∧ dataReg a = some ⟨max w 32, b.value⟩
          ∧ indexOperand a = some (WReg b.Waddr, IndexExt.UXTW))
      ∧ (∃ a, (instrs (EmitInlineExclusiveWriteMemory abi conf b acctype w h)).filter
            isGuestAccess = [a]
          ∧ accessBits a = w ∧ dataReg a = some ⟨max w 32, b.value⟩
          ∧ (instrs (EmitInlineExclusiveWriteMemory abi conf b acctype w h)).filterMap
              indexOperand = [(WReg b.Waddr, IndexExt.UXTW)]))
    ∧ ((exec ext (EmitInlineReadMemory abi conf b acctype w h) m).regs b.to_
          = loadLE m.mem (fastmemAddr conf b m) (w / 8)
      ∧ (exec ext (EmitInlineExclusiveReadMemory abi conf b acctype w h) m).regs b.to_
          = loadLE m.mem (fastmemAddr conf b m) (w / 8)
      ∧ loadLE m.mem (fastmemAddr conf b m) (w / 8) < 2 ^ w)
    ∧ ((exec ext (EmitInlineWriteMemory abi conf b acctype w h) m).mem
          = storeLE m.mem (fastmemAddr conf b m) (m.regs b.value % 2 ^ w) (w / 8)
      ∧ (exec ext (EmitInlineExclusiveWriteMemory abi conf b acctype w h) m).mem
          = (if m.monitor = some (fastmemAddr conf b m) then
              storeLE m.mem (fastmemAddr conf b m) (m.regs b.value % 2 ^ w) (w / 8)
             else m.mem)
      ∧ (∀ x, (∀ k, k < w / 8 → x ≠ (fastmemAddr conf b m + k) % 2 ^ 64) →
          storeLE m.mem (fastmemAddr conf b m) (m.regs b.value % 2 ^ w) (w / 8) x = m.mem x)
      ∧ (∀ r, r ≠ abi.Xscratch0 →
          (exec ext (EmitInlineWriteMemory abi conf b acctype w h) m).regs r = m.regs r)) := by
  have hw := loadLE_width m.mem (fastmemAddr conf b m) w h
  refine ⟨inline_requests abi conf b acctype w h, inline_syntax abi conf b acctype w h,
    ⟨?_, ?_, hw.1⟩, ?_, ?_, ?_, ?_⟩
  · rw [exec_inline_read abi conf b acctype ext w h m hs31 ha ha31, load_regs_to _ _ _ _ _ ht31]
    exact hw.2
  · rw [exec_inline_excl_read abi conf b acctype ext w h m hs31 ha ha31]
    show ((m.write (XReg abi.Xscratch0) (fastmemAddr conf b m)).load ⟨max w 32, b.to_⟩
      (fastmemAddr conf b m) (w / 8)).regs b.to_ = _
    rw [load_regs_to _ _ _ _ _ ht31]
    exact hw.2
  · rw [exec_inline_write abi conf b acctype ext w h m hs31 ha ha31]
    show storeLE m.mem _ ((m.write (XReg abi.Xscratch0) conf.fastmem_addr).read
      ⟨max w 32, b.value⟩) _ = _
    rw [read_value_after_scratch abi b m _ _ hv hv31, storeLE_low _ _ _ _ h]
  · rw [exec_inline_excl_write abi conf b acctype ext w h m hs31 ha ha31]
    have hr := read_value_after_scratch abi b m (fastmemAddr conf b m) (max w 32) hv hv31
    by_cases hm : m.monitor = some (fastmemAddr conf b m)
    · have hm1 : (m.write (XReg abi.Xscratch0) (fastmemAddr conf b m)).monitor
          = some (fastmemAddr conf b m) := hm
      simp only [Machine.storeExcl, hm1, if_true, hm]
      show storeLE m.mem _ ((m.write (XReg abi.Xscratch0) (fastmemAddr conf b m)).read
        ⟨max w 32, b.value⟩) _ = _
      rw [hr, storeLE_low _ _ _ _ h]
    · have hm1 : ¬ (m.write (XReg abi.Xscratch0) (fastmemAddr conf b m)).monitor
          = some (fastmemAddr conf b m) := hm
      simp only [Machine.storeExcl, hm1, if_false, hm]
      rfl
  · intro x hx
    exact storeLE_frame (w / 8) m.mem _ _ x hx
  · intro r hr
    rw [exec_inline_write abi conf b acctype ext w h m hs31 ha ha31]
    show (m.write (XReg abi.Xscratch0) conf.fastmem_addr).regs r = m.regs r
    exact write_regs_other m _ _ r (by simpa [XReg] using hr)

/-- C10 at a concrete input: the 16-bit accesses on the sample machine with fastmem at
65536. -/
theorem C10_fastmem_width_correctness_witness :
    (ValidBitSize 16 ∧ sampleAbi.Xscratch0 ≠ 31 ∧ sampleBinding.Waddr ≠ sampleAbi.Xscratch0
      ∧ sampleBinding.Waddr ≠ 31 ∧ sampleBinding.to_ ≠ 31
      ∧ sampleBinding.value ≠ sampleAbi.Xscratch0 ∧ sampleBinding.value ≠ 31)
    ∧ (exec sampleExt (EmitInlineReadMemory sampleAbi sampleFastmem sampleBinding
          AccType.ORDERED 16 (by decide)) (sampleMachine 0)).regs sampleBinding.to_
        = loadLE (sampleMachine 0).mem (fastmemAddr sampleFastmem sampleBinding
            (sampleMachine 0)) (16 / 8)
    ∧ (exec sampleExt (EmitInlineWriteMemory sampleAbi sampleFastmem sampleBinding
          AccType.ORDERED 16 (by decide)) (sampleMachine 0)).mem
        = storeLE (sampleMachine 0).mem (fastmemAddr sampleFastmem sampleBinding
            (sampleMachine 0)) ((sampleMachine 0).regs sampleBinding.value % 2 ^ 16) (16 / 8) :=
  have h := C10_fastmem_width_correctness sampleAbi sampleFastmem sampleBinding
    AccType.ORDERED sampleExt 16 (by decide) (sampleMachine 0) (by decide) (by decide)
    (by decide) (by decide) (by decide) (by decide)
  ⟨⟨by decide, by decide, by decide, by decide, by decide, by decide, by decide⟩,
    h.2.2.1.1, h.2.2.2.1⟩

/-! ## Lemmas on plain accesses, arming and path separation -/

theorem flag_write (abi : Abi) (m : Machine) (r : Reg) (v : Nat)
    (hr : r.index ≠ abi.Xstate) : flag abi (m.write r v) = flag abi m := by
  have ha : flagAddr abi (m.write r v) = flagAddr abi m :=
    flagAddr_congr abi _ _ (write_regs_other m r v _ (Ne.symm hr))
  unfold flag
  rw [ha]
  rfl

theorem flag_load (abi : Abi) (m : Machine) (rt : Reg) (a n : Nat)
    (hr : rt.index ≠ abi.Xstate) : flag abi (m.load rt a n) = flag abi m :=
  flag_write abi m rt _ hr

theorem regAddr_arena (abi : Abi) (conf : EmitConfig) (b : Binding) (m : Machine)
    (hs31 : abi.Xscratch0 ≠ 31) :
    ∃ idx, idx < 2 ^ 32 ∧
      (m.write (XReg abi.Xscratch0) conf.fastmem_addr).regAddr (XReg abi.Xscratch0)
        (WReg b.Waddr) IndexExt.UXTW = (conf.fastmem_addr % 2 ^ 64 + idx) % 2 ^ 64 := by
  refine ⟨IndexExt.UXTW.apply ((m.write (XReg abi.Xscratch0) conf.fastmem_addr).read
    (XReg (WReg b.Waddr).index)), ?_, ?_⟩
  · simp only [IndexExt.apply]
    exact Nat.mod_lt _ (by norm_num)
  · simp [Machine.regAddr, Machine.readSp, Machine.write, XReg, hs31]

theorem flag_store_outside (abi : Abi) (conf : EmitConfig) (m : Machine) (rt : Reg)
    (v idx n : Nat) (hidx : idx < 2 ^ 32) (hn : n ≤ 8)
    (hs : abi.Xscratch0 ≠ abi.Xstate) (hout : FlagOutsideFastmem abi conf m) :
    flag abi ((m.write (XReg abi.Xscratch0) v).store rt
      ((conf.fastmem_addr % 2 ^ 64 + idx) % 2 ^ 64) n) = flag abi m := by
  have ha : flagAddr abi ((m.write (XReg abi.Xscratch0) v).store rt
      ((conf.fastmem_addr % 2 ^ 64 + idx) % 2 ^ 64) n) = flagAddr abi m :=
    flagAddr_congr abi _ _ (write_regs_other m _ v _ (by simpa [XReg] using hs.symm))
  unfold flag
  rw [ha]
  show storeLE m.mem _ _ n (flagAddr abi m) % 256 = _
  rw [storeLE_frame]
  intro k hk
  have h1 := hout (idx + k) (by omega)
  intro heq
  apply h1
  rw [heq]
  omega

theorem flag_exec_inline_read (abi : Abi) (conf : EmitConfig) (b : Binding)
    (acctype : AccType) (ext : LinkTarget → Machine → Machine) (w : Nat)
    (h : ValidBitSize w) (m : Machine)
    (hs : abi.Xscratch0 ≠ abi.Xstate) (ht : b.to_ ≠ abi.Xstate) :
    flag abi (exec ext (EmitInlineReadMemory abi conf b acctype w h) m) = flag abi m := by
  have key : ∀ a n, flag abi ((m.write (XReg abi.Xscratch0) conf.fastmem_addr).load
      ⟨max w 32, b.to_⟩ a n) = flag abi m := by
    intro a n
    rw [flag_load abi _ _ a n (by simpa using ht),
      flag_write abi m _ _ (by simpa [XReg] using hs)]
  rcases h with rfl | rfl | rfl | rfl <;> cases ho : IsOrdered acctype <;>
    simp only [exec, EmitInlineReadMemory, instrs, run, step, ho] <;>
    simp [instrs, run, step] <;> exact key _ _

theorem flag_exec_inline_write (abi : Abi) (conf : EmitConfig) (b : Binding)
    (acctype : AccType) (ext : LinkTarget → Machine → Machine) (w : Nat)
    (h : ValidBitSize w) (m : Machine)
    (hs31 : abi.Xscratch0 ≠ 31) (hs : abi.Xscratch0 ≠ abi.Xstate)
    (hout : FlagOutsideFastmem abi conf m) :
    flag abi (exec ext (EmitInlineWriteMemory abi conf b acctype w h) m) = flag abi m := by
  obtain ⟨idx, hidx, hA⟩ := regAddr_arena abi conf b m hs31
  have key : ∀ n, n ≤ 8 → flag abi ((m.write (XReg abi.Xscratch0) conf.fastmem_addr).store
      ⟨max w 32, b.value⟩ ((m.write (XReg abi.Xscratch0) conf.fastmem_addr).regAddr
        (XReg abi.Xscratch0) (WReg b.Waddr) IndexExt.UXTW) n) = flag abi m := by
    intro n hn
    rw [hA]
    exact flag_store_outside abi conf m _ _ idx n hidx hn hs hout
  rcases h with rfl | rfl | rfl | rfl <;> cases ho : IsOrdered acctype <;>
    simp only [exec, EmitInlineWriteMemory, instrs, run, step, ho] <;>
    simp [instrs, run, step] <;> exact key _ (by norm_num)

theorem flag_exec_fallback_read (abi : Abi) (acctype : AccType)
    (ext : LinkTarget → Machine → Machine) (fn : LinkTarget) (m : Machine)
    (hext : PreservesFlag abi ext) :
    flag abi (exec ext (EmitReadMemory acctype fn) m) = flag abi m := by
  cases ho : IsOrdered acctype <;>
    simp [exec, EmitReadMemory, instrs, run, step, ho, (hext fn m).2]

theorem flag_exec_fallback_write (abi : Abi) (acctype : AccType)
    (ext : LinkTarget → Machine → Machine) (fn : LinkTarget) (m : Machine)
    (hext : PreservesFlag abi ext) :
    flag abi (exec ext (EmitWriteMemory acctype fn) m) = flag abi m := by
  cases ho : IsOrdered acctype <;>
    simp [exec, EmitWriteMemory, instrs, run, step, ho, (hext fn m).2]

theorem plain_no_state_access (abi : Abi) (conf : EmitConfig) (b : Binding)
    (acctype : AccType) (op : Opcode) (hop : op.isMemory = true ∧ op.isExclusive = false) :
    ∀ i ∈ instrs (EmitIR abi conf b acctype op),
      isStateAccess abi i = false ∧ isFlagLoad abi i = false ∧ isFlagStore abi i = false := by
  obtain ⟨fm, fa⟩ := conf
  cases op <;> simp [Opcode.isMemory, Opcode.isExclusive] at hop <;> cases fm <;>
    cases ho : IsOrdered acctype <;>
    simp [EmitIR, EmitInlineReadMemory, EmitInlineWriteMemory, EmitReadMemory, EmitWriteMemory,
      instrs, ho, isStateAccess, isFlagLoad, isFlagStore]

theorem EmitIR_inline (abi : Abi) (fa : Nat) (b : Binding) (acctype : AccType)
    (op : Opcode) (hop : op.isMemory = true) :
    ∃ h : ValidBitSize op.bit_size,
      EmitIR abi ⟨true, fa⟩ b acctype op
        = inlineEmitterFor op.isWrite op.isExclusive abi ⟨true, fa⟩ b acctype op.bit_size
            h := by
  cases op <;> simp [Opcode.isMemory] at hop <;> exact ⟨by decide, rfl⟩

theorem sample_flag_outside_fastmem :
    FlagOutsideFastmem sampleAbi sampleFastmem (sampleMachine 1) := by
  intro g hg
  have h : flagAddr sampleAbi (sampleMachine 1) = 4416 := by decide
  rw [h]
  simp only [sampleFastmem]
  omega

theorem flag_excl_read_prefix (abi : Abi) (ext : LinkTarget → Machine → Machine)
    (m : Machine) (h31 : abi.Xscratch0 ≠ 31) (hs : abi.Xscratch0 ≠ abi.Xstate) :
    flag abi (run ext none
      [Instr.MOV (WReg abi.Xscratch0) 1,
       Instr.STRB_imm (WReg abi.Xscratch0) (XReg abi.Xstate) abi.exclusive_state] m) = 1 := by
  have ha := flagAddr_write abi m 1 hs
  have hrun : run ext none
      [Instr.MOV (WReg abi.Xscratch0) 1,
       Instr.STRB_imm (WReg abi.Xscratch0) (XReg abi.Xstate) abi.exclusive_state] m
      = (m.write (WReg abi.Xscratch0) 1).store (WReg abi.Xscratch0)
          (flagAddr abi (m.write (WReg abi.Xscratch0) 1)) 1 := rfl
  rw [hrun, flag_store_byte, read_write_same]
  simp [WReg, h31]

theorem fastmem_no_call_no_state (abi : Abi) (fa : Nat) (b : Binding) (acctype : AccType)
    (op : Opcode) :
    positions isCall (instrs (EmitIR abi ⟨true, fa⟩ b acctype op)) = []
    ∧ ∀ i ∈ instrs (EmitIR abi ⟨true, fa⟩ b acctype op),
        isStateAccess abi i = false ∧ isFlagLoad abi i = false ∧ isFlagStore abi i = false := by
  cases op <;> cases ho : IsOrdered acctype <;>
    simp [EmitIR, EmitInlineReadMemory, EmitInlineExclusiveReadMemory, EmitInlineWriteMemory,
      EmitInlineExclusiveWriteMemory, instrs, ho, positions, positionsFrom, isCall,
      isStateAccess, isFlagLoad, isFlagStore]

theorem fallback_one_call_no_guest_access (abi : Abi) (fa : Nat) (b : Binding)
    (acctype : AccType) (op : Opcode) (hop : op.isMemory = true) :
    (∃ k, positions isCall (instrs (EmitIR abi ⟨false, fa⟩ b acctype op)) = [k])
    ∧ positions isGuestAccess (instrs (EmitIR abi ⟨false, fa⟩ b acctype op)) = [] := by
  cases op <;> simp [Opcode.isMemory] at hop <;> cases ho : IsOrdered acctype <;>
    simp [EmitIR, EmitReadMemory, EmitExclusiveReadMemory, EmitWriteMemory,
      EmitExclusiveWriteMemory, instrs, ho, positions, positionsFrom, isCall, isGuestAccess]

/-- C11 as stated fails: for the ordered 32-bit plain store without fastmem the call
preparation is the first event and both barriers come after it, so no barrier precedes the
call preparation; and the emission of the ordered 8-bit exclusive store is not the order the
statement gives, in which the call preparation follows the flag clear. -/
theorem C11_call_preparation_precedes_barrier :
    IsOrdered AccType.ORDERED = true
    ∧ EmitIR sampleAbi ⟨false, 0⟩ sampleBinding AccType.ORDERED Opcode.A32WriteMemory32
        = [Emit.PrepareForCall true [none, some 1, some 2],
           Emit.code (Instr.DMB BarrierOp.ISH),
           Emit.code (Instr.Relocation LinkTarget.WriteMemory32),
           Emit.code (Instr.DMB BarrierOp.ISH)]
    ∧ eventPositions isCallPreparation (EmitIR sampleAbi ⟨false, 0⟩ sampleBinding
        AccType.ORDERED Opcode.A32WriteMemory32) = [0]
    ∧ eventPositions isBarrierEvent (EmitIR sampleAbi ⟨false, 0⟩ sampleBinding
        AccType.ORDERED Opcode.A32WriteMemory32) = [1, 3]
    ∧ ¬ (∃ i ∈ eventPositions isBarrierEvent (EmitIR sampleAbi ⟨false, 0⟩ sampleBinding
          AccType.ORDERED Opcode.A32WriteMemory32),
        ∃ j ∈ eventPositions isCallPreparation (EmitIR sampleAbi ⟨false, 0⟩ sampleBinding
          AccType.ORDERED Opcode.A32WriteMemory32), i < j)
    ∧ EmitIR sampleAbi ⟨false, 0⟩ sampleBinding AccType.ORDERED
        Opcode.A32ExclusiveWriteMemory8
        ≠ [Emit.code (Instr.DMB BarrierOp.ISH),
           Emit.code (Instr.LDRB_imm (WReg 16) (XReg 28) 320),
           Emit.code (Instr.CBZ (WReg 16) end_label),
           Emit.code (Instr.STRB_imm WZR (XReg 28) 320),
           Emit.PrepareForCall true [none, some 1, some 2],
           Emit.code (Instr.Relocation LinkTarget.ExclusiveWriteMemory8),
           Emit.code (Instr.DMB BarrierOp.ISH),
           Emit.code (Instr.l end_label)] := by
  decide

/-- C11, amended. Fallback store emission order: for every plain or exclusive store opcode,
with fastmem disabled and an ordered access type, the call preparation (with address and
value as arguments) is the first event of the emission and the opening barrier is the second.
The plain store emits call preparation, barrier, relocatable call, barrier; the exclusive
store emits call preparation, barrier, flag load, branch-if-zero, flag clear, relocatable
call, barrier, end label. The call goes to the routine the routing table gives for the
opcode. -/
theorem C11_fallback_store_emission_order (abi : Abi) (fa : Nat) (b : Binding)
    (acctype : AccType) (op : Opcode) (hop : op.isWrite = true)
    (hord : IsOrdered acctype = true) :
    ∃ fn, routineFor true op.isExclusive op.bit_size = some fn
      ∧ EmitIR abi ⟨false, fa⟩ b acctype op
          = (if op.isExclusive then
              [Emit.PrepareForCall true [none, some 1, some 2],
               Emit.code (Instr.DMB BarrierOp.ISH),
               Emit.code (Instr.LDRB_imm (WReg abi.Xscratch0) (XReg abi.Xstate)
                 abi.exclusive_state),
               Emit.code (Instr.CBZ (WReg abi.Xscratch0) end_label),
               Emit.code (Instr.STRB_imm WZR (XReg abi.Xstate) abi.exclusive_state),
               Emit.code (Instr.Relocation fn),
               Emit.code (Instr.DMB BarrierOp.ISH),
               Emit.code (Instr.l end_label)]
             else
              [Emit.PrepareForCall true [none, some 1, some 2],
               Emit.code (Instr.DMB BarrierOp.ISH),
               Emit.code (Instr.Relocation fn),
               Emit.code (Instr.DMB BarrierOp.ISH)])
      ∧ eventPositions isCallPreparation (EmitIR abi ⟨false, fa⟩ b acctype op) = [0]
      ∧ (eventPositions isBarrierEvent (EmitIR abi ⟨false, fa⟩ b acctype op)).head?
          = some 1 := by
  cases op <;> simp [Opcode.isWrite] at hop <;>
    simp [EmitIR, EmitWriteMemory, EmitExclusiveWriteMemory, hord, routineFor,
      Opcode.isExclusive, Opcode.bit_size, eventPositions, eventPositionsFrom,
      isCallPreparation, isBarrierEvent, isBarrier]

/-- C11, amended, at a concrete input: the ordered 8-bit exclusive store. -/
theorem C11_fallback_store_emission_order_witness :
    (Opcode.A32ExclusiveWriteMemory8.isWrite = true ∧ IsOrdered AccType.ORDERED = true)
    ∧ ∃ fn, routineFor true Opcode.A32ExclusiveWriteMemory8.isExclusive
          Opcode.A32ExclusiveWriteMemory8.bit_size = some fn
      ∧ EmitIR sampleAbi ⟨false, 0⟩ sampleBinding AccType.ORDERED
          Opcode.A32ExclusiveWriteMemory8
          = (if Opcode.A32ExclusiveWriteMemory8.isExclusive then
              [Emit.PrepareForCall true [none, some 1, some 2],
               Emit.code (Instr.DMB BarrierOp.ISH),
               Emit.code (Instr.LDRB_imm (WReg sampleAbi.Xscratch0) (XReg sampleAbi.Xstate)
                 sampleAbi.exclusive_state),
               Emit.code (Instr.CBZ (WReg sampleAbi.Xscratch0) end_label),
               Emit.code (Instr.STRB_imm WZR (XReg sampleAbi.Xstate)
                 sampleAbi.exclusive_state),
               Emit.code (Instr.Relocation fn),
               Emit.code (Instr.DMB BarrierOp.ISH),
               Emit.code (Instr.l end_label)]
             else
              [Emit.PrepareForCall true [none, some 1, some 2],
               Emit.code (Instr.DMB BarrierOp.ISH),
               Emit.code (Instr.Relocation fn),
               Emit.code (Instr.DMB BarrierOp.ISH)])
      ∧ eventPositions isCallPreparation (EmitIR sampleAbi ⟨false, 0⟩ sampleBinding
          AccType.ORDERED Opcode.A32ExclusiveWriteMemory8) = [0]
      ∧ (eventPositions isBarrierEvent (EmitIR sampleAbi ⟨false, 0⟩ sampleBinding
          AccType.ORDERED Opcode.A32ExclusiveWriteMemory8)).head? = some 1 :=
  ⟨⟨by decide, by decide⟩,
    C11_fallback_store_emission_order sampleAbi 0 sampleBinding AccType.ORDERED
      Opcode.A32ExclusiveWriteMemory8 (by decide) (by decide)⟩

/-- C12. Plain accesses leave the monitor alone. For every plain read or write opcode, both
fastmem settings, every access type and binding: no emitted instruction is an
immediate-offset load or store through `Xstate`, so none reads or writes the exclusive flag;
and after the emitted instructions have executed the flag has its prior value. For the flag
to be followed: the scratch register is neither register 31 nor `Xstate`, a load destination
is not `Xstate`, the out-of-line routines leave `Xstate` and the flag byte alone
(`PreservesFlag`), and the flag lies outside the fastmem mapping of the guest address space
(`FlagOutsideFastmem`). -/
theorem C12_plain_access_leaves_flag (abi : Abi) (conf : EmitConfig) (b : Binding)
    (acctype : AccType) (op : Opcode) (ext : LinkTarget → Machine → Machine) (m : Machine)
    (hop : op.isMemory = true ∧ op.isExclusive = false)
    (hs31 : abi.Xscratch0 ≠ 31) (hs : abi.Xscratch0 ≠ abi.Xstate)
    (ht : b.to_ ≠ abi.Xstate) (hext : PreservesFlag abi ext)
    (hout : FlagOutsideFastmem abi conf m) :
    (∀ i ∈ instrs (EmitIR abi conf b acctype op),
      isStateAccess abi i = false ∧ isFlagLoad abi i = false ∧ isFlagStore abi i = false)
    ∧ flag abi (exec ext (EmitIR abi conf b acctype op) m) = flag abi m := by
  refine ⟨plain_no_state_access abi conf b acctype op hop, ?_⟩
  obtain ⟨fm, fa⟩ := conf
  cases fm
  · obtain ⟨fn, -, -, -, -, he, -⟩ := EmitIR_fallback abi fa b acctype op hop.1
    rw [he, hop.2]
    cases op.isWrite
    · exact flag_exec_fallback_read abi acctype ext fn m hext
    · exact flag_exec_fallback_write abi acctype ext fn m hext
  · obtain ⟨h, he⟩ := EmitIR_inline abi fa b acctype op hop.1
    rw [he, hop.2]
    cases op.isWrite
    · exact flag_exec_inline_read abi ⟨true, fa⟩ b acctype ext op.bit_size h m hs ht
    · exact flag_exec_inline_write abi ⟨true, fa⟩ b acctype ext op.bit_size h m hs31 hs hout

/-- C12 at a concrete input: the ordered 32-bit plain store with fastmem on the armed sample
machine. -/
theorem C12_plain_access_leaves_flag_witness :
    ((Opcode.A32WriteMemory32.isMemory = true ∧ Opcode.A32WriteMemory32.isExclusive = false)
      ∧ sampleAbi.Xscratch0 ≠ 31 ∧ sampleAbi.Xscratch0 ≠ sampleAbi.Xstate
      ∧ sampleBinding.to_ ≠ sampleAbi.Xstate ∧ PreservesFlag sampleAbi sampleExt
      ∧ FlagOutsideFastmem sampleAbi sampleFastmem (sampleMachine 1)
      ∧ flag sampleAbi (sampleMachine 1) = 1)
    ∧ ((∀ i ∈ instrs (EmitIR sampleAbi sampleFastmem sampleBinding AccType.ORDERED
          Opcode.A32WriteMemory32),
        isStateAccess sampleAbi i = false ∧ isFlagLoad sampleAbi i = false
          ∧ isFlagStore sampleAbi i = false)
      ∧ flag sampleAbi (exec sampleExt (EmitIR sampleAbi sampleFastmem sampleBinding
          AccType.ORDERED Opcode.A32WriteMemory32) (sampleMachine 1))
        = flag sampleAbi (sampleMachine 1)) :=
  ⟨⟨by decide, by decide, by decide, by decide, sampleExt_preservesFlag,
      sample_flag_outside_fastmem, by decide⟩,
    C12_plain_access_leaves_flag sampleAbi sampleFastmem sampleBinding AccType.ORDERED
      Opcode.A32WriteMemory32 sampleExt (sampleMachine 1) (by decide) (by decide) (by decide)
      (by decide) sampleExt_preservesFlag sample_flag_outside_fastmem⟩

/-- C13. Arming precedes the call. For every exclusive-load opcode, access type and binding,
with fastmem disabled: the emitted instructions are `MOV Wscratch0, 1`, `STRB Wscratch0` to
the flag, the relocatable call to the exclusive-read routine of the opcode's width, and the
barrier if ordered; the store at position 1 is the only store to the flag and the only access
through `Xstate`, it is one byte wide, and it precedes the call at position 2; and after the
two instructions before the call have executed the flag is 1, whatever the initial state. The
scratch register is assumed to be neither register 31 nor `Xstate`. -/
theorem C13_arming_precedes_call (abi : Abi) (ext : LinkTarget → Machine → Machine)
    (fa : Nat) (b : Binding) (acctype : AccType) (op : Opcode) (m : Machine)
    (hop : op.isWrite = false ∧ op.isExclusive = true)
    (h31 : abi.Xscratch0 ≠ 31) (hs : abi.Xscratch0 ≠ abi.Xstate) :
    ∃ fn, fn.isWrite = false ∧ fn.isExclusive = true ∧ fn.bit_size = op.bit_size
      ∧ instrs (EmitIR abi ⟨false, fa⟩ b acctype op)
          = [Instr.MOV (WReg abi.Xscratch0) 1,
             Instr.STRB_imm (WReg abi.Xscratch0) (XReg abi.Xstate) abi.exclusive_state,
             Instr.Relocation fn]
            ++ (if IsOrdered acctype then [Instr.DMB BarrierOp.ISH] else [])
      ∧ positions (isFlagStore abi) (instrs (EmitIR abi ⟨false, fa⟩ b acctype op)) = [1]
      ∧ positions (isStateAccess abi) (instrs (EmitIR abi ⟨false, fa⟩ b acctype op)) = [1]
      ∧ accessBits (Instr.STRB_imm (WReg abi.Xscratch0) (XReg abi.Xstate)
          abi.exclusive_state) = 8
      ∧ positions isCall (instrs (EmitIR abi ⟨false, fa⟩ b acctype op)) = [2]
      ∧ flag abi (run ext none ((instrs (EmitIR abi ⟨false, fa⟩ b acctype op)).take 2) m)
          = 1 := by
  obtain ⟨fn, he, hw, hx, hb⟩ := EmitIR_exclusive_read abi fa b acctype op hop
  refine ⟨fn, hw, hx, hb, ?_⟩
  rw [he]
  have hf := flag_excl_read_prefix abi ext m h31 hs
  cases ho : IsOrdered acctype <;>
    simp [EmitExclusiveReadMemory, instrs, ho, positions, positionsFrom, isFlagStore,
      isStateAccess, isCall, accessBits, XReg, WReg] <;>
    simpa [XReg, WReg] using hf

/-- C13 at a concrete input: the unordered 16-bit exclusive load, from a flag byte of 7. -/
theorem C13_arming_precedes_call_witness :
    ((Opcode.A32ExclusiveReadMemory16.isWrite = false
        ∧ Opcode.A32ExclusiveReadMemory16.isExclusive = true)
      ∧ sampleAbi.Xscratch0 ≠ 31 ∧ sampleAbi.Xscratch0 ≠ sampleAbi.Xstate
      ∧ flag sampleAbi (sampleMachine 7) = 7)
    ∧ positions (isFlagStore sampleAbi) (instrs (EmitIR sampleAbi ⟨false, 0⟩ sampleBinding
        (AccType.other 0) Opcode.A32ExclusiveReadMemory16)) = [1]
    ∧ positions isCall (instrs (EmitIR sampleAbi ⟨false, 0⟩ sampleBinding
        (AccType.other 0) Opcode.A32ExclusiveReadMemory16)) = [2]
    ∧ flag sampleAbi (run sampleExt none ((instrs (EmitIR sampleAbi ⟨false, 0⟩ sampleBinding
        (AccType.other 0) Opcode.A32ExclusiveReadMemory16)).take 2) (sampleMachine 7)) = 1 :=
  have h := C13_arming_precedes_call sampleAbi sampleExt 0 sampleBinding (AccType.other 0)
    Opcode.A32ExclusiveReadMemory16 (sampleMachine 7) (by decide) (by decide) (by decide)
  ⟨⟨by decide, by decide, by decide, by decide⟩,
    h.elim fun _ hfn => ⟨hfn.2.2.2.2.1, hfn.2.2.2.2.2.2.2.1, hfn.2.2.2.2.2.2.2.2⟩⟩

/-- C14. Path separation. With fastmem enabled, for each of the sixteen read/write opcodes
and for `A32ClearExclusive`, the emitted instructions contain no relocatable call and no
immediate-offset access through `Xstate`, so no access to the exclusive flag. With fastmem
disabled, for each of the sixteen read/write opcodes they contain exactly one relocatable call
and no register-offset or exclusive load or store (the forms addressed through the fastmem
base), and for `A32ClearExclusive` they contain no `CLREX`. -/
theorem C14_path_separation (abi : Abi) (fa : Nat) (b : Binding) (acctype : AccType)
    (op : Opcode) :
    (positions isCall (instrs (EmitIR abi ⟨true, fa⟩ b acctype op)) = []
      ∧ ∀ i ∈ instrs (EmitIR abi ⟨true, fa⟩ b acctype op),
          isStateAccess abi i = false ∧ isFlagLoad abi i = false
            ∧ isFlagStore abi i = false)
    ∧ (op.isMemory = true →
        (∃ k, positions isCall (instrs (EmitIR abi ⟨false, fa⟩ b acctype op)) = [k])
        ∧ positions isGuestAccess (instrs (EmitIR abi ⟨false, fa⟩ b acctype op)) = [])
    ∧ positions isClrex
        (instrs (EmitIR abi ⟨false, fa⟩ b acctype Opcode.A32ClearExclusive)) = [] := by
  refine ⟨fastmem_no_call_no_state abi fa b acctype op,
    fallback_one_call_no_guest_access abi fa b acctype op, ?_⟩
  simp [EmitIR, instrs, positions, positionsFrom, isClrex]

/-- C14 at a concrete input: the 64-bit exclusive load. -/
theorem C14_path_separation_witness :
    Opcode.A32ExclusiveReadMemory64.isMemory = true
    ∧ positions isCall (instrs (EmitIR sampleAbi ⟨false, 65536⟩ sampleBinding AccType.ORDERED
        Opcode.A32ExclusiveReadMemory64)) = [2]
    ∧ ((positions isCall (instrs (EmitIR sampleAbi ⟨true, 65536⟩ sampleBinding
          AccType.ORDERED Opcode.A32ExclusiveReadMemory64)) = []
        ∧ ∀ i ∈ instrs (EmitIR sampleAbi ⟨true, 65536⟩ sampleBinding AccType.ORDERED
            Opcode.A32ExclusiveReadMemory64),
            isStateAccess sampleAbi i = false ∧ isFlagLoad sampleAbi i = false
              ∧ isFlagStore sampleAbi i = false)
      ∧ (Opcode.A32ExclusiveReadMemory64.isMemory = true →
          (∃ k, positions isCall (instrs (EmitIR sampleAbi ⟨false, 65536⟩ sampleBinding
            AccType.ORDERED Opcode.A32ExclusiveReadMemory64)) = [k])
          ∧ positions isGuestAccess (instrs (EmitIR sampleAbi ⟨false, 65536⟩ sampleBinding
            AccType.ORDERED Opcode.A32ExclusiveReadMemory64)) = [])
      ∧ positions isClrex (instrs (EmitIR sampleAbi ⟨false, 65536⟩ sampleBinding
          AccType.ORDERED Opcode.A32ClearExclusive)) = []) :=
  ⟨by decide, by decide,
    C14_path_separation sampleAbi 65536 sampleBinding AccType.ORDERED
      Opcode.A32ExclusiveReadMemory64⟩

/-- C15. Barriers executed by an ordered exclusive store on the fallback path. For every
exclusive-store opcode and ordered access type, with fastmem disabled: when the flag is 0 the
instructions executed are the opening barrier, the flag load and the branch-if-zero, so
exactly one barrier; when the flag is nonzero exactly two barriers are executed. In the
emitted instructions the barriers are at positions 0 and 5, the branch-if-zero at position 2
targets the end label, and the end label is bound at position 6, after the closing barrier.
The scratch register is assumed not to be register 31. -/
theorem C15_barriers_executed_by_exclusive_store (abi : Abi)
    (ext : LinkTarget → Machine → Machine) (fa : Nat) (b : Binding) (acctype : AccType)
    (op : Opcode) (m : Machine)
    (hop : op.isWrite = true ∧ op.isExclusive = true)
    (hord : IsOrdered acctype = true) (h31 : abi.Xscratch0 ≠ 31) :
    (flag abi m = 0 →
        executed ext (EmitIR abi ⟨false, fa⟩ b acctype op) m
          = [Instr.DMB BarrierOp.ISH,
             Instr.LDRB_imm (WReg abi.Xscratch0) (XReg abi.Xstate) abi.exclusive_state,
             Instr.CBZ (WReg abi.Xscratch0) end_label]
        ∧ barriersOf (executed ext (EmitIR abi ⟨false, fa⟩ b acctype op) m)
          = [BarrierOp.ISH])
    ∧ (flag abi m ≠ 0 →
        barriersOf (executed ext (EmitIR abi ⟨false, fa⟩ b acctype op) m)
          = [BarrierOp.ISH, BarrierOp.ISH])
    ∧ positions isBarrier (instrs (EmitIR abi ⟨false, fa⟩ b acctype op)) = [0, 5]
    ∧ (instrs (EmitIR abi ⟨false, fa⟩ b acctype op)).get? 2
        = some (Instr.CBZ (WReg abi.Xscratch0) end_label)
    ∧ positions (isLabel end_label) (instrs (EmitIR abi ⟨false, fa⟩ b acctype op)) = [6] := by
  obtain ⟨fn, he, -, -, -⟩ := EmitIR_exclusive_write abi fa b acctype op hop
  simp only [executed, he]
  refine ⟨?_, ?_, ?_, ?_, ?_⟩
  · intro hflag
    rw [trace_excl_write_skip abi ext acctype fn m hflag, hord]
    exact ⟨rfl, rfl⟩
  · intro hflag
    rw [trace_excl_write_armed abi ext acctype fn m hflag h31, hord]
    rfl
  all_goals
    simp [EmitExclusiveWriteMemory, instrs, hord, positions, positionsFrom, isBarrier, isLabel]

/-- C15 at a concrete input: the ordered 32-bit exclusive store on the disarmed sample
machine. -/
theorem C15_barriers_executed_by_exclusive_store_witness :
    ((Opcode.A32ExclusiveWriteMemory32.isWrite = true
        ∧ Opcode.A32ExclusiveWriteMemory32.isExclusive = true)
      ∧ IsOrdered AccType.LIMITEDORDERED = true ∧ sampleAbi.Xscratch0 ≠ 31
      ∧ flag sampleAbi (sampleMachine 0) = 0)
    ∧ barriersOf (executed sampleExt (EmitIR sampleAbi ⟨false, 0⟩ sampleBinding
        AccType.LIMITEDORDERED Opcode.A32ExclusiveWriteMemory32) (sampleMachine 0))
      = [BarrierOp.ISH] :=
  ⟨⟨by decide, by decide, by decide, by decide⟩,
    ((C15_barriers_executed_by_exclusive_store sampleAbi sampleExt 0 sampleBinding
      AccType.LIMITEDORDERED Opcode.A32ExclusiveWriteMemory32 (sampleMachine 0) (by decide)
      (by decide) (by decide)).1 (by decide)).2⟩

/-! ## Lemmas on the whole emission and on the clearing store -/

theorem runAll_excl_write (alloc : Emit → Machine → Machine)
    (ext : LinkTarget → Machine → Machine) (abi : Abi) (acctype : AccType) (fn : LinkTarget)
    (m : Machine) :
    runAll alloc ext none (EmitExclusiveWriteMemory abi acctype fn) m
      = run ext none (instrs (EmitExclusiveWriteMemory abi acctype fn))
          (alloc (Emit.PrepareForCall true [none, some 1, some 2]) m) := by
  cases ho : IsOrdered acctype <;>
    simp [EmitExclusiveWriteMemory, ho, runAll, run, instrs, end_label]

theorem traceAll_excl_write (alloc : Emit → Machine → Machine)
    (ext : LinkTarget → Machine → Machine) (abi : Abi) (acctype : AccType) (fn : LinkTarget)
    (m : Machine) :
    traceAll alloc ext none (EmitExclusiveWriteMemory abi acctype fn) m
      = trace ext none (instrs (EmitExclusiveWriteMemory abi acctype fn))
          (alloc (Emit.PrepareForCall true [none, some 1, some 2]) m) := by
  cases ho : IsOrdered acctype <;>
    simp [EmitExclusiveWriteMemory, ho, traceAll, trace, instrs, end_label]

theorem head_excl_write (abi : Abi) (acctype : AccType) (fn : LinkTarget) :
    (EmitExclusiveWriteMemory abi acctype fn).head?
      = some (Emit.PrepareForCall true [none, some 1, some 2]) := by
  simp [EmitExclusiveWriteMemory]

theorem specAlloc_regs_other (b : Binding) (m : Machine) (r : Nat) (h1 : r ≠ 1)
    (h2 : r ≠ 2) :
    (specAlloc b (Emit.PrepareForCall true [none, some 1, some 2]) m).regs r = m.regs r := by
  match r, h1, h2 with
  | 0, _, _ => rfl
  | r + 3, _, _ => rfl

theorem storeLE_zero_four_at (mem : Nat → Nat) (a k : Nat) (hk : k < 4) :
    storeLE mem a 0 4 ((a + k) % 2 ^ 64) = 0 := by
  simp only [storeLE]
  interval_cases k <;> simp

theorem exec_clear_exclusive (abi : Abi) (ext : LinkTarget → Machine → Machine) (fa : Nat)
    (b : Binding) (acctype : AccType) (m : Machine) :
    exec ext (EmitIR abi ⟨false, fa⟩ b acctype Opcode.A32ClearExclusive) m
      = m.store WZR (flagAddr abi m) 4 := rfl

theorem excl_state_access_bits (abi : Abi) (fa : Nat) (b : Binding) (acctype : AccType)
    (op : Opcode) (hop : op.isExclusive = true) :
    ∀ i ∈ instrs (EmitIR abi ⟨false, fa⟩ b acctype op),
      isStateAccess abi i = true → accessBits i = 8 := by
  cases op <;> simp [Opcode.isExclusive] at hop <;> cases ho : IsOrdered acctype <;>
    simp [EmitIR, EmitExclusiveReadMemory, EmitExclusiveWriteMemory, instrs, ho,
      isStateAccess, accessBits]

/-- C4 as stated fails. With fastmem disabled the sequence emitted for `A32ClearExclusive` is
one `STR` of `WZR` at the flag, a 32-bit store and not a one-byte one; and on the sample
machine, whose flag is the byte at 4416 and whose next byte holds 171, the byte after the flag
does not keep its value: it is 0 afterwards. -/
theorem C4_clear_exclusive_store_is_a_word :
    instrs (EmitIR sampleAbi ⟨false, 0⟩ sampleBinding AccType.ORDERED
        Opcode.A32ClearExclusive) = [Instr.STR_imm WZR (XReg 28) 320]
    ∧ accessBits (Instr.STR_imm WZR (XReg 28) 320) = 32
    ∧ ¬ (∀ i ∈ instrs (EmitIR sampleAbi ⟨false, 0⟩ sampleBinding AccType.ORDERED
          Opcode.A32ClearExclusive), accessBits i = 8)
    ∧ flagAddr sampleAbi (sampleMachine 1) = 4416
    ∧ (sampleMachine 1).mem 4417 = 171
    ∧ (exec sampleExt (EmitIR sampleAbi ⟨false, 0⟩ sampleBinding AccType.ORDERED
        Opcode.A32ClearExclusive) (sampleMachine 1)).mem 4417 = 0
    ∧ ¬ (∀ x, x ≠ flagAddr sampleAbi (sampleMachine 1) →
        (exec sampleExt (EmitIR sampleAbi ⟨false, 0⟩ sampleBinding AccType.ORDERED
          Opcode.A32ClearExclusive) (sampleMachine 1)).mem x = (sampleMachine 1).mem x) := by
  refine ⟨by decide, by decide, by decide, by decide, by decide, by decide, ?_⟩
  intro h
  exact absurd (h 4417 (by decide)) (by decide)

/-- C4, amended. `A32ClearExclusive` with fastmem disabled stores a zero word at the exclusive
flag and changes nothing else. For every state: the emitted sequence is one `STR` of `WZR` at
the offset of the flag through `Xstate`, a 32-bit store, whereas every access through `Xstate`
emitted for the exclusive loads and stores without fastmem is 8 bits wide; after it has
executed the flag byte is 0 and so are the three bytes after it (the four bytes of the word),
every other byte of memory has its prior value, and so have the registers and the exclusive
monitor. -/
theorem C4_clear_exclusive_zeroes_flag_word (abi : Abi)
    (ext : LinkTarget → Machine → Machine) (fa : Nat) (b b2 : Binding)
    (acctype a2 : AccType) (op : Opcode) (m : Machine) :
    instrs (EmitIR abi ⟨false, fa⟩ b acctype Opcode.A32ClearExclusive)
        = [Instr.STR_imm WZR (XReg abi.Xstate) abi.exclusive_state]
    ∧ accessBits (Instr.STR_imm WZR (XReg abi.Xstate) abi.exclusive_state) = 32
    ∧ (op.isExclusive = true →
        ∀ i ∈ instrs (EmitIR abi ⟨false, fa⟩ b2 a2 op),
          isStateAccess abi i = true → accessBits i = 8)
    ∧ flag abi (exec ext (EmitIR abi ⟨false, fa⟩ b acctype Opcode.A32ClearExclusive) m) = 0
    ∧ (∀ k, k < 4 →
        (exec ext (EmitIR abi ⟨false, fa⟩ b acctype Opcode.A32ClearExclusive) m).mem
          ((flagAddr abi m + k) % 2 ^ 64) = 0)
    ∧ (∀ x, (∀ k, k < 4 → x ≠ (flagAddr abi m + k) % 2 ^ 64) →
        (exec ext (EmitIR abi ⟨false, fa⟩ b acctype Opcode.A32ClearExclusive) m).mem x
          = m.mem x)
    ∧ (exec ext (EmitIR abi ⟨false, fa⟩ b acctype Opcode.A32ClearExclusive) m).regs = m.regs
    ∧ (exec ext (EmitIR abi ⟨false, fa⟩ b acctype Opcode.A32ClearExclusive) m).monitor
        = m.monitor := by
  have h0 : m.read WZR = 0 := by simp [Machine.read, WZR]
  rw [exec_clear_exclusive]
  refine ⟨rfl, rfl, excl_state_access_bits abi fa b2 a2 op, flag_clear_exclusive abi m,
    ?_, ?_, rfl, rfl⟩
  · intro k hk
    show storeLE m.mem (flagAddr abi m) (m.read WZR) 4 _ = 0
    rw [h0]
    exact storeLE_zero_four_at m.mem _ k hk
  · intro x hx
    exact storeLE_frame 4 m.mem _ _ x hx

/-- C4, amended, at a concrete input: the sample machine with the flag 1 and the 16-bit
exclusive store as the sibling. -/
theorem C4_clear_exclusive_zeroes_flag_word_witness :
    Opcode.A32ExclusiveWriteMemory16.isExclusive = true
    ∧ flag sampleAbi (sampleMachine 1) = 1
    ∧ flag sampleAbi (exec sampleExt (EmitIR sampleAbi ⟨false, 0⟩ sampleBinding
        AccType.ORDERED Opcode.A32ClearExclusive) (sampleMachine 1)) = 0
    ∧ (∀ i ∈ instrs (EmitIR sampleAbi ⟨false, 0⟩ sampleBinding AccType.ORDERED
          Opcode.A32ExclusiveWriteMemory16),
        isStateAccess sampleAbi i = true → accessBits i = 8)
    ∧ (∀ x, (∀ k, k < 4 → x ≠ (flagAddr sampleAbi (sampleMachine 1) + k) % 2 ^ 64) →
        (exec sampleExt (EmitIR sampleAbi ⟨false, 0⟩ sampleBinding AccType.ORDERED
          Opcode.A32ClearExclusive) (sampleMachine 1)).mem x = (sampleMachine 1).mem x) :=
  have h := C4_clear_exclusive_zeroes_flag_word sampleAbi sampleExt 0 sampleBinding
    sampleBinding AccType.ORDERED AccType.ORDERED Opcode.A32ExclusiveWriteMemory16
    (sampleMachine 1)
  ⟨by decide, by decide, h.2.2.2.1, h.2.2.1 (by decide), h.2.2.2.2.2.1⟩

/-- C6 as stated fails once the call preparation, which the emitter requests before the flag
check, is part of the sequence. With the call preparation as the specification describes it
(`specAlloc`), the unordered 16-bit exclusive store on a machine whose flag is 0 leaves X2, the
register of the value argument and not the scratch register, with the value of X3: a register
other than the scratch register is written on the skipped path. -/
theorem C6_call_preparation_writes_argument_register :
    flag sampleAbi countingMachine = 0
    ∧ (EmitIR sampleAbi ⟨false, 0⟩ sampleBinding (AccType.other 0)
        Opcode.A32ExclusiveWriteMemory16).head?
        = some (Emit.PrepareForCall true [none, some 1, some 2])
    ∧ 2 ≠ sampleAbi.Xscratch0
    ∧ countingMachine.regs 2 = 102
    ∧ (runAll (specAlloc sampleBinding) sampleExt none
        (EmitIR sampleAbi ⟨false, 0⟩ sampleBinding (AccType.other 0)
          Opcode.A32ExclusiveWriteMemory16) countingMachine).regs 2 = 103
    ∧ ¬ (∀ r, r ≠ sampleAbi.Xscratch0 →
        (runAll (specAlloc sampleBinding) sampleExt none
          (EmitIR sampleAbi ⟨false, 0⟩ sampleBinding (AccType.other 0)
            Opcode.A32ExclusiveWriteMemory16) countingMachine).regs r
          = countingMachine.regs r) := by
  refine ⟨by decide, by decide, by decide, by decide, by decide, ?_⟩
  intro h
  exact absurd (h 2 (by decide)) (by decide)

/-- C6, amended. Skipped exclusive store on the fallback path, call preparation included. For
every exclusive-store opcode, access type and binding, whatever code the register allocator
emits at its requests (`alloc`), and every state in which the exclusive flag is 0 once the
call preparation has run: the emission starts with the call preparation, which is executed;
the emitter's instructions executed after it are the opening barrier if ordered, the load of
the flag and the branch-if-zero, and nothing after the branch (it is taken to the end label);
no relocatable call is executed; and those instructions write no register other than the
scratch register, so every other register, memory and the monitor are as the call preparation
left them. A register other than the scratch register that the call preparation does not write
holds the same value after the sequence as before it; the call preparation the specification
describes writes only the argument registers X1 and X2, so this covers the result
register. -/
theorem C6_skipped_exclusive_store_after_preparation (abi : Abi)
    (alloc : Emit → Machine → Machine) (ext : LinkTarget → Machine → Machine)
    (fa : Nat) (b : Binding) (acctype : AccType) (op : Opcode) (m : Machine)
    (hop : op.isWrite = true ∧ op.isExclusive = true)
    (hflag : flag abi (alloc (Emit.PrepareForCall true [none, some 1, some 2]) m) = 0) :
    (EmitIR abi ⟨false, fa⟩ b acctype op).head?
        = some (Emit.PrepareForCall true [none, some 1, some 2])
    ∧ traceAll alloc ext none (EmitIR abi ⟨false, fa⟩ b acctype op) m
        = (if IsOrdered acctype then [Instr.DMB BarrierOp.ISH] else [])
          ++ [Instr.LDRB_imm (WReg abi.Xscratch0) (XReg abi.Xstate) abi.exclusive_state,
              Instr.CBZ (WReg abi.Xscratch0) end_label]
    ∧ callsOf (traceAll alloc ext none (EmitIR abi ⟨false, fa⟩ b acctype op) m) = []
    ∧ runAll alloc ext none (EmitIR abi ⟨false, fa⟩ b acctype op) m
        = (alloc (Emit.PrepareForCall true [none, some 1, some 2]) m).write
            (WReg abi.Xscratch0) 0
    ∧ (∀ r, r ≠ abi.Xscratch0 →
        (runAll alloc ext none (EmitIR abi ⟨false, fa⟩ b acctype op) m).regs r
          = (alloc (Emit.PrepareForCall true [none, some 1, some 2]) m).regs r)
    ∧ (runAll alloc ext none (EmitIR abi ⟨false, fa⟩ b acctype op) m).mem
        = (alloc (Emit.PrepareForCall true [none, some 1, some 2]) m).mem
    ∧ (runAll alloc ext none (EmitIR abi ⟨false, fa⟩ b acctype op) m).monitor
        = (alloc (Emit.PrepareForCall true [none, some 1, some 2]) m).monitor
    ∧ (∀ r, r ≠ abi.Xscratch0 →
        (alloc (Emit.PrepareForCall true [none, some 1, some 2]) m).regs r = m.regs r →
        (runAll alloc ext none (EmitIR abi ⟨false, fa⟩ b acctype op) m).regs r = m.regs r)
    ∧ (∀ r, r ≠ 1 → r ≠ 2 →
        (specAlloc b (Emit.PrepareForCall true [none, some 1, some 2]) m).regs r
          = m.regs r) := by
  obtain ⟨fn, he, -, -, -⟩ := EmitIR_exclusive_write abi fa b acctype op hop
  rw [he, runAll_excl_write, traceAll_excl_write,
    run_excl_write_skip abi ext acctype fn _ hflag]
  have hr : ∀ r, r ≠ abi.Xscratch0 →
      ((alloc (Emit.PrepareForCall true [none, some 1, some 2]) m).write
        (WReg abi.Xscratch0) 0).regs r
        = (alloc (Emit.PrepareForCall true [none, some 1, some 2]) m).regs r :=
    fun r hr => write_regs_other _ _ 0 r (by simpa [WReg] using hr)
  refine ⟨head_excl_write abi acctype fn, trace_excl_write_skip abi ext acctype fn _ hflag,
    calls_excl_write_skip abi ext acctype fn _ hflag, rfl, hr, rfl, rfl, ?_,
    fun r h1 h2 => specAlloc_regs_other b m r h1 h2⟩
  intro r hne hsame
  rw [hr r hne, hsame]

/-- C6, amended, at a concrete input: the unordered 16-bit exclusive store, with the call
preparation the specification describes, on a machine whose flag is 0; X0 keeps its value. -/
theorem C6_skipped_exclusive_store_after_preparation_witness :
    ((Opcode.A32ExclusiveWriteMemory16.isWrite = true
        ∧ Opcode.A32ExclusiveWriteMemory16.isExclusive = true)
      ∧ flag sampleAbi (specAlloc sampleBinding
          (Emit.PrepareForCall true [none, some 1, some 2]) countingMachine) = 0)
    ∧ callsOf (traceAll (specAlloc sampleBinding) sampleExt none
        (EmitIR sampleAbi ⟨false, 0⟩ sampleBinding (AccType.other 0)
          Opcode.A32ExclusiveWriteMemory16) countingMachine) = []
    ∧ (runAll (specAlloc sampleBinding) sampleExt none
        (EmitIR sampleAbi ⟨false, 0⟩ sampleBinding (AccType.other 0)
          Opcode.A32ExclusiveWriteMemory16) countingMachine).regs 0
        = countingMachine.regs 0 :=
  have h := C6_skipped_exclusive_store_after_preparation sampleAbi (specAlloc sampleBinding)
    sampleExt 0 sampleBinding (AccType.other 0) Opcode.A32ExclusiveWriteMemory16
    countingMachine (by decide) (by decide)
  ⟨⟨by decide, by decide⟩, h.2.2.1,
    h.2.2.2.2.2.2.2.1 0 (by decide) (h.2.2.2.2.2.2.2.2 0 (by decide) (by decide))⟩

end Dynarmic.Backend.Arm64
